import Mathlib

/-!
Verification development for `train_eval.py` (class `TrainModel`).

The Python source is shallowly embedded below.  Numeric cells are rationals;
a missing value (NaN / null) is `Option.none`.  Fallible library operations
(`sklearn.train_test_split`, `pandas.DataFrame.drop`, `accuracy_score`,
`np.bincount(...).argmax()`, `model.predict`, …) are embedded as `Except Err`
computations whose error constructors name the Python exception that the
corresponding library call raises.

Opaque external collaborators (the random-forest learner, the KNN imputer,
and the shuffling performed by `train_test_split`) are passed in as function
parameters; theorems that depend on the shuffle being a permutation take that
as an explicit hypothesis, exactly as `sklearn` guarantees.
-/

set_option maxRecDepth 100000

instance {ε α : Type} [DecidableEq ε] [DecidableEq α] : DecidableEq (Except ε α)
  | .error e, .error f =>
    if h : e = f then .isTrue (by rw [h]) else .isFalse (by intro hh; injection hh; contradiction)
  | .error _, .ok _ => .isFalse (by intro h; cases h)
  | .ok _, .error _ => .isFalse (by intro h; cases h)
  | .ok a, .ok b =>
    if h : a = b then .isTrue (by rw [h]) else .isFalse (by intro hh; injection hh; contradiction)

namespace TrainEval

/-- A table cell: `none` models NaN/null. -/
abbrev Cell := Option ℚ

/-- A feature row as stored in the numpy matrices (may contain nulls). -/
abbrev Row := List Cell

/-- A fully observed feature row, as fed to the opaque classifier. -/
abbrev CRow := List ℚ

/-- An opaque fitted classifier: `predict` on one fully observed row.
`sklearn` estimators predict row-wise, so matrix prediction is a map. -/
abbrev Model := CRow → Int

/-- Python exceptions raised by the library calls in `train_eval.py`. -/
inductive Err where
  /-- `list.pop(0)` on an empty column list (0-column table). -/
  | indexError
  /-- `sklearn.train_test_split`: `train_size` must be positive and strictly
  smaller than the number of samples. -/
  | trainSizeError
  /-- attribute access / `.copy()` on a `None` field. -/
  | attributeError
  /-- `model.predict` before `model.fit` (`sklearn` NotFittedError). -/
  | notFittedError
  /-- generic `ValueError` (`np.argmax` of empty, predict/fit on NaN input,
  predict on an empty sample set, DataFrame width mismatch, …). -/
  | valueError
  /-- `pandas` label lookup / `DataFrame.drop` on an unknown column label. -/
  | keyError
  /-- `accuracy_score` on sequences of different lengths. -/
  | lengthMismatch
deriving Repr, DecidableEq

/-- The caller-supplied table: `ncols` columns (column 0 is the target
score), rows in order.  Rectangularity is assumed where a theorem needs it. -/
structure Dataset where
  ncols : Nat
  rows : List (List Cell)
deriving Repr, DecidableEq

/-- `np.sum(np.isnan(X), axis=1) > 0` for one feature row. -/
def isMissingRow (r : Row) : Bool := r.any fun c => c.isNone

/-- `y = (Xy[:,0] >= threshold).astype(int)` for one row of the table.
numpy comparisons with NaN are `False`, hence label `0`. -/
def labelOf (threshold : ℚ) (r : List Cell) : Int :=
  match r.head? with
  | some (some v) => if threshold ≤ v then 1 else 0
  | _ => 0

/-- `data.isnull().any()` for one column of the original table (all columns,
including the target column 0). -/
def colHasNull (d : Dataset) (c : Nat) : Bool :=
  d.rows.any fun r => ((r.get? c).getD (some 0)).isNone

/-- `X = Xy[:,1:]` — the feature matrix. -/
def featuresOf (d : Dataset) : List Row := d.rows.map (·.drop 1)

/-- `y = (Xy[:,0] >= threshold).astype(int)`. -/
def labelsOf (d : Dataset) (t : ℚ) : List Int := d.rows.map (labelOf t)

/-- Feature rows paired with their labels (numpy keeps `X` and `y` aligned,
and `train_test_split` splits them jointly). -/
def pairsOf (d : Dataset) (t : ℚ) : List (Row × Int) :=
  (featuresOf d).zip (labelsOf d t)

/-- `X[~missing], y[~missing]` — the complete (no-null-feature) rows. -/
def completePairs (d : Dataset) (t : ℚ) : List (Row × Int) :=
  (pairsOf d t).filter fun p => !(isMissingRow p.1)

/-- `X[missing], y[missing]`. -/
def missingPairs (d : Dataset) (t : ℚ) : List (Row × Int) :=
  (pairsOf d t).filter fun p => isMissingRow p.1

/-- The state populated by `load_data` (the six partition fields together
with `missing`, `feature_labels` and `columns_missing`). -/
structure Split where
  x_train : List Row
  y_train : List Int
  x_test : List Row
  y_test : List Int
  x_missing : List Row
  y_missing : List Int
  missingMask : List Bool
  feature_labels : List Nat
  columns_missing : List Nat
deriving Repr, DecidableEq, Inhabited

/-- `TrainModel.load_data`.  Column labels are positional indices, so
`feature_labels = [1, …, ncols-1]` (all columns except the first).
`shuffle` is the permutation drawn by `train_test_split(random_state=seed)`;
the split takes the first 3000 of the permuted complete rows as `train` and
the rest as `test`.  `sklearn` raises `ValueError` unless
`0 < train_size < n_samples`, i.e. unless there are strictly more than 3000
complete rows. -/
def mkSplit (shuffle : List (Row × Int) → List (Row × Int))
    (d : Dataset) (t : ℚ) : Split :=
  let shuffled := shuffle (completePairs d t)
  let trainPairs := shuffled.take 3000
  let testPairs := shuffled.drop 3000
  { x_train := trainPairs.map Prod.fst
    y_train := trainPairs.map Prod.snd
    x_test := testPairs.map Prod.fst
    y_test := testPairs.map Prod.snd
    x_missing := (missingPairs d t).map Prod.fst
    y_missing := (missingPairs d t).map Prod.snd
    missingMask := (featuresOf d).map isMissingRow
    feature_labels := List.range' 1 (d.ncols - 1)
    columns_missing := (List.range d.ncols).filter (colHasNull d) }

def load_data (shuffle : List (Row × Int) → List (Row × Int))
    (d : Dataset) (t : ℚ) : Except Err Split :=
  if d.ncols = 0 then .error .indexError
  else if (completePairs d t).length ≤ 3000 then .error .trainSizeError
  else .ok (mkSplit shuffle d t)

end TrainEval

namespace TrainEval

/-- Sequencing of fallible operations over a list (the embedding of a
vectorised numpy/sklearn operation that raises on the first bad element). -/
def mapExcept (f : α → Except Err β) : List α → Except Err (List β)
  | [] => .ok []
  | a :: as =>
    match f a with
    | .error e => .error e
    | .ok b =>
      match mapExcept f as with
      | .error e => .error e
      | .ok bs => .ok (b :: bs)

/-- The row-wise part of `model.predict(rows)`: `sklearn` checks fitting
first (`NotFittedError`), raises `ValueError` on NaN input, and predicts
row by row. -/
def predictMatrix (m? : Option Model) (rows : List Row) : Except Err (List Int) :=
  match m? with
  | none => .error .notFittedError
  | some m =>
    mapExcept (fun r =>
      if r.any (·.isNone) then .error .valueError
      else .ok (m (r.filterMap id))) rows

/-- `model.predict(rows)` in full: after the fitted check, `check_array`
also rejects an empty sample set (`ValueError`, `ensure_min_samples=1`);
this is what every `self.model.predict`/`model.predict` call in
`evaluate_model` goes through. -/
def predictChecked (m? : Option Model) (rows : List Row) : Except Err (List Int) :=
  match m? with
  | none => .error .notFittedError
  | some m =>
    if rows.length = 0 then .error .valueError
    else predictMatrix (some m) rows

/-- `sklearn.metrics.accuracy_score`: fraction of exact matches; raises on
inconsistent lengths.  On two empty sequences it does NOT raise:
`np.average` of the empty score vector is NaN (with a RuntimeWarning).
NaN has no representative in `ℚ`, so the embedding returns 0 on that
branch; no theorem depends on this stand-in value, only on the fact that
the call completes. -/
def accuracy_score (t p : List Int) : Except Err ℚ :=
  if t.length ≠ p.length then .error .lengthMismatch
  else if t.length = 0 then .ok 0
  else .ok ((((t.zip p).countP fun q => q.1 = q.2) : ℚ) / (t.length : ℚ))

/-- `np.argmax`: index of the first occurrence of the maximum. -/
def argmaxIdx : List Nat → Nat
  | [] => 0
  | x :: xs => if xs.all (· ≤ x) then 0 else argmaxIdx xs + 1

/-- `max` of a list of naturals (0 for the empty list). -/
def natMaxOf (l : List Nat) : Nat := l.foldr max 0

/-- `np.bincount(y).argmax()` (strategy B's majority class):
`bincount` needs nonnegative entries and returns occurrence counts for
`0 … max y`; on an empty input it returns an empty array, and `argmax` of an
empty array raises `ValueError`. -/
def majorityClass (y : List Int) : Except Err Int :=
  if y.any (· < 0) then .error .valueError
  else match y with
  | [] => .error .valueError
  | _ => .ok ((argmaxIdx
      ((List.range (natMaxOf (y.map Int.toNat) + 1)).map
        fun (i : Nat) => y.count (i : Int)) : Nat) : Int)

/-- Position of a column label in a DataFrame's column list
(`KeyError` when absent). -/
def colPos : List Nat → Nat → Except Err Nat
  | [], _ => .error .keyError
  | l :: ls, c => if l = c then .ok 0 else (colPos ls c).map (· + 1)

/-- `pd.DataFrame(rows, columns=labels).drop(columns=cols)` followed by
taking the values: DataFrame construction raises on a width mismatch, and
`drop` raises `KeyError` on a label that is not a column. -/
def rebuildDrop (labels cols : List Nat) (rows : List Row) : Except Err (List Row) :=
  if rows.any (fun r => r.length ≠ labels.length) then .error .valueError
  else if cols.any (fun c => !(labels.contains c)) then .error .keyError
  else .ok (rows.map fun r => ((labels.zip r).filter fun p => !(cols.contains p.1)).map (·.2))

/-- `Series.mean()` with pandas' default `skipna=True`: mean of the non-null
values, NaN (`none`) when there are none. -/
def colMean (col : List Cell) : Option ℚ :=
  let vs := col.filterMap id
  if vs.length = 0 then none else some (vs.sum / (vs.length : ℚ))

/-- Insertion into a sorted list of rationals. -/
def insertSorted (x : ℚ) : List ℚ → List ℚ
  | [] => [x]
  | y :: ys => if x ≤ y then x :: y :: ys else y :: insertSorted x ys

/-- Insertion sort of rationals. -/
def sortRats : List ℚ → List ℚ
  | [] => []
  | x :: xs => insertSorted x (sortRats xs)

/-- `Series.median()` with pandas' default `skipna=True`: median of the
non-null values (middle of the sorted values, or the average of the two
middles), NaN (`none`) when there are none. -/
def colMedian (col : List Cell) : Option ℚ :=
  let vs := col.filterMap id
  if vs.length = 0 then none
  else
    let ss := sortRats vs
    some (if ss.length % 2 = 1 then ss.getD (ss.length / 2) 0
          else (ss.getD (ss.length / 2 - 1) 0 + ss.getD (ss.length / 2) 0) / 2)

/-- `Series.fillna(v)` at one cell: a null cell at position `j` is replaced
by `v` (filling with NaN keeps NaN); other cells are untouched. -/
def fillCell (j : Nat) (v : Option ℚ) (r : Row) : Row :=
  if r.get? j = some none then r.set j v else r

/-- The per-strategy working context of `evaluate_model`: the copies taken at
the top of the loop body, plus the shared read-only state (`self.model`,
`self.feature_labels`, `self.columns_missing`) and the opaque external
algorithms (classifier training, KNN imputation). -/
structure Ctx where
  x_train : List Row
  y_train : List Int
  x_test : List Row
  y_test : List Int
  x_missing : List Row
  y_missing : List Int
  feature_labels : List Nat
  columns_missing : List Nat
  model : Option Model
  fit : List CRow → List Int → Model
  knn : List Row → List Row → List Row

/-- Strategies D/E: rebuild `x_missing` and `x_train` as DataFrames over
`feature_labels`, compute `stat` of each `columns_missing` column over the
train frame (`KeyError` if such a label is not a feature column), then fill
the nulls of each such column of the missing frame with that value. -/
def imputeWith (stat : List Cell → Option ℚ) (c : Ctx) : Except Err (List Row) :=
  if (c.x_missing ++ c.x_train).any (fun r => r.length ≠ c.feature_labels.length) then
    .error .valueError
  else
    match mapExcept (fun col =>
        match colPos c.feature_labels col with
        | .error e => .error e
        | .ok j => .ok (j, stat (c.x_train.map fun r => (r.get? j).getD none)))
        c.columns_missing with
    | .error e => .error e
    | .ok dict =>
      .ok (dict.foldl (fun rows jv => rows.map (fillCell jv.1 jv.2)) c.x_missing)

/-- Strategy D's combined-set prediction vector:
`self.model.predict(np.concatenate((x_test, rebuilt_x_missing)))`. -/
def combinedPredD (c : Ctx) : Except Err (List Int) :=
  match imputeWith colMean c with
  | .error e => .error e
  | .ok imp => predictChecked c.model (c.x_test ++ imp)

/-- Strategy E's combined-set prediction vector. -/
def combinedPredE (c : Ctx) : Except Err (List Int) :=
  match imputeWith colMedian c with
  | .error e => .error e
  | .ok imp => predictChecked c.model (c.x_test ++ imp)

/-- Strategy F's combined-set prediction vector
(`x_missing` transformed by the KNN imputer fitted on `x_train`). -/
def combinedPredF (c : Ctx) : Except Err (List Int) :=
  predictChecked c.model (c.x_test ++ c.knn c.x_train c.x_missing)

/-- `RandomForestClassifier.fit`: raises `ValueError` on NaN input, and
otherwise defers to the opaque learning algorithm. -/
def fitChecked (fit : List CRow → List Int → Model) (X : List Row) (y : List Int) :
    Except Err Model :=
  if X.any (·.any (·.isNone)) then .error .valueError
  else .ok (fit (X.map (·.filterMap id)) y)

/-- The six strategy tags iterated by `evaluate_model`. -/
inductive Strategy | A | B | C | D | E | F
deriving Repr, DecidableEq

/-- An accuracy mapping (`accuracy_dict_entire_test_set` or
`accuracy_dict_missing_values`); within one `evaluate_model` run each
strategy writes its own key at most once. -/
abbrev Dict := List (Strategy × ℚ)

/-- What one strategy branch contributes: the entry it wrote to each of the
two dictionaries (in branch order: entire-set first, missing-only second)
and the exception it raised, if any. -/
structure StratOut where
  entire? : Option ℚ
  missing? : Option ℚ
  err? : Option Err
deriving Repr, DecidableEq

/-- Strategy A (abstention), lines 93–109. -/
def runA (c : Ctx) : StratOut :=
  match predictChecked c.model c.x_test with
  | .error e => ⟨none, none, some e⟩
  | .ok y_pred =>
    match accuracy_score (c.y_test ++ c.y_missing)
        (y_pred ++ List.replicate c.x_missing.length (-1)) with
    | .error e => ⟨none, none, some e⟩
    | .ok acc =>
      match accuracy_score c.y_missing (List.replicate c.x_missing.length (-1)) with
      | .error e => ⟨some acc, none, some e⟩
      | .ok accm => ⟨some acc, some accm, none⟩

/-- Strategy B (majority-class fallback), lines 111–127.  (`y_test_full`
is the concatenation computed in A's iteration, whose value equals
`y_test ++ y_missing`.) -/
def runB (c : Ctx) : StratOut :=
  match majorityClass c.y_train with
  | .error e => ⟨none, none, some e⟩
  | .ok maj =>
    match predictChecked c.model c.x_test with
    | .error e => ⟨none, none, some e⟩
    | .ok y_pred_non =>
      match accuracy_score (c.y_test ++ c.y_missing)
          (y_pred_non ++ List.replicate c.y_missing.length maj) with
      | .error e => ⟨none, none, some e⟩
      | .ok acc =>
        match accuracy_score c.y_missing (List.replicate c.y_missing.length maj) with
        | .error e => ⟨some acc, none, some e⟩
        | .ok accm => ⟨some acc, some accm, none⟩

/-- Strategy C (feature omission with retraining), lines 129–156. -/
def runC (c : Ctx) : StratOut :=
  match rebuildDrop c.feature_labels c.columns_missing (c.x_test ++ c.x_missing) with
  | .error e => ⟨none, none, some e⟩
  | .ok rbTest =>
    match rebuildDrop c.feature_labels c.columns_missing c.x_train with
    | .error e => ⟨none, none, some e⟩
    | .ok rbTrain =>
      match fitChecked c.fit rbTrain c.y_train with
      | .error e => ⟨none, none, some e⟩
      | .ok model =>
        match predictChecked (some model) rbTest with
        | .error e => ⟨none, none, some e⟩
        | .ok y_pred =>
          match accuracy_score (c.y_test ++ c.y_missing) y_pred with
          | .error e => ⟨none, none, some e⟩
          | .ok acc =>
            match rebuildDrop c.feature_labels c.columns_missing c.x_missing with
            | .error e => ⟨some acc, none, some e⟩
            | .ok rbMissing =>
              match predictChecked (some model) rbMissing with
              | .error e => ⟨some acc, none, some e⟩
              | .ok ym =>
                match accuracy_score c.y_missing ym with
                | .error e => ⟨some acc, none, some e⟩
                | .ok accm => ⟨some acc, some accm, none⟩

/-- Strategies D and E share their shape, lines 158–214: impute `x_missing`
with the per-column train statistic, predict on `x_test ++ imputed`, then on
`imputed` alone. -/
def runImpute (stat : List Cell → Option ℚ) (c : Ctx) : StratOut :=
  match imputeWith stat c with
  | .error e => ⟨none, none, some e⟩
  | .ok imp =>
    match predictChecked c.model (c.x_test ++ imp) with
    | .error e => ⟨none, none, some e⟩
    | .ok y_pred =>
      match accuracy_score (c.y_test ++ c.y_missing) y_pred with
      | .error e => ⟨none, none, some e⟩
      | .ok acc =>
        match predictChecked c.model imp with
        | .error e => ⟨some acc, none, some e⟩
        | .ok ym =>
          match accuracy_score c.y_missing ym with
          | .error e => ⟨some acc, none, some e⟩
          | .ok accm => ⟨some acc, some accm, none⟩

/-- Strategy F (KNN imputation), lines 216–232. -/
def runF (c : Ctx) : StratOut :=
  match predictChecked c.model (c.x_test ++ c.knn c.x_train c.x_missing) with
  | .error e => ⟨none, none, some e⟩
  | .ok y_pred =>
    match accuracy_score (c.y_test ++ c.y_missing) y_pred with
    | .error e => ⟨none, none, some e⟩
    | .ok acc =>
      match predictChecked c.model (c.knn c.x_train c.x_missing) with
      | .error e => ⟨some acc, none, some e⟩
      | .ok ym =>
        match accuracy_score c.y_missing ym with
        | .error e => ⟨some acc, none, some e⟩
        | .ok accm => ⟨some acc, some accm, none⟩

/-- One iteration of the strategy loop. -/
def runStrategy : Strategy → Ctx → StratOut
  | .A => runA
  | .B => runB
  | .C => runC
  | .D => runImpute colMean
  | .E => runImpute colMedian
  | .F => runF

/-- `method = ['A','B','C','D','E','F']` — the fixed iteration order. -/
def strategyOrder : List Strategy := [.A, .B, .C, .D, .E, .F]

/-- The strategy loop: run the strategies in order, accumulating the two
dictionaries; an uncaught exception abandons the remaining strategies. -/
def runAll (c : Ctx) : List Strategy → Dict × Dict → (Dict × Dict) × Option Err
  | [], d => (d, none)
  | s :: rest, d =>
    let o := runStrategy s c
    let d' := (d.1 ++ (o.entire?.map fun a => (s, a)).toList,
               d.2 ++ (o.missing?.map fun a => (s, a)).toList)
    match o.err? with
    | some e => (d', some e)
    | none => runAll c rest d'

/-- The `TrainModel` instance state: the split fields are all `None` until
`load_data` sets them together; `fitted` is `some` once `train_model` has
fitted `self.model`; the two dictionaries start empty.  The opaque learning
and KNN-imputation algorithms ride along as function-valued fields. -/
structure Harness where
  data : Dataset
  threshold : ℚ
  split : Option Split
  fitted : Option Model
  acc_entire : Dict
  acc_missing : Dict
  fit : List CRow → List Int → Model
  knn : List Row → List Row → List Row

/-- `TrainModel.__init__(data, threshold, random_seed)`. -/
def initHarness (fit : List CRow → List Int → Model)
    (knn : List Row → List Row → List Row) (data : Dataset) (threshold : ℚ) : Harness :=
  { data, threshold, split := none, fitted := none,
    acc_entire := [], acc_missing := [], fit, knn }

/-- The harness-level `load_data` method. -/
def Harness.load (shuffle : List (Row × Int) → List (Row × Int)) (h : Harness) :
    Except Err Harness :=
  (load_data shuffle h.data h.threshold).map fun sp => {h with split := some sp}

/-- `TrainModel.train_model`: `self.model.fit(self.x_train, self.y_train)`.
When `load_data` has not run, the fields are `None` and `sklearn`'s input
validation raises `ValueError`. -/
def train_model (h : Harness) : Except Err Harness :=
  match h.split with
  | none => .error .valueError
  | some sp =>
    match fitChecked h.fit sp.x_train sp.y_train with
    | .error e => .error e
    | .ok m => .ok {h with fitted := some m}

/-- The per-strategy context built from a loaded split, the (possibly
unfitted) baseline model and the opaque external algorithms. -/
def evalCtx (sp : Split) (m? : Option Model) (fitf : List CRow → List Int → Model)
    (knnf : List Row → List Row → List Row) : Ctx :=
  { x_train := sp.x_train, y_train := sp.y_train,
    x_test := sp.x_test, y_test := sp.y_test,
    x_missing := sp.x_missing, y_missing := sp.y_missing,
    feature_labels := sp.feature_labels, columns_missing := sp.columns_missing,
    model := m?, fit := fitf, knn := knnf }

/-- The per-strategy context built from the loaded split and the shared
harness state. -/
def Split.toCtx (sp : Split) (h : Harness) : Ctx :=
  evalCtx sp h.fitted h.fit h.knn

/-- `TrainModel.evaluate_model`: before `load_data`, the very first
`self.x_test.copy()` raises `AttributeError` on `None`; otherwise the six
strategies run in order, incrementally populating the two dictionaries, and
the first uncaught exception propagates. -/
def evaluate_model (h : Harness) : Harness × Option Err :=
  match h.split with
  | none => (h, some .attributeError)
  | some sp =>
    let out := runAll (sp.toCtx h) strategyOrder (h.acc_entire, h.acc_missing)
    ({h with acc_entire := out.1.1, acc_missing := out.1.2}, out.2)

end TrainEval

namespace TrainEval

/-! ### Lemmas about `mapExcept` and `predictMatrix` -/

theorem mapExcept_ok_length {α β : Type} {f : α → Except Err β} :
    ∀ {l : List α} {res : List β}, mapExcept f l = .ok res → res.length = l.length := by
  intro l
  induction l with
  | nil => intro res h; simp only [mapExcept] at h; injection h with h; simp [← h]
  | cons a as ih =>
    intro res h
    simp only [mapExcept] at h
    cases hfa : f a with
    | error e => rw [hfa] at h; cases h
    | ok b =>
      rw [hfa] at h
      cases hrest : mapExcept f as with
      | error e => rw [hrest] at h; cases h
      | ok bs =>
        rw [hrest] at h
        injection h with h
        simp [← h, ih hrest]

theorem mapExcept_append_ok {α β : Type} {f : α → Except Err β} :
    ∀ {l₁ l₂ : List α} {res : List β}, mapExcept f (l₁ ++ l₂) = .ok res →
      ∃ r₁ r₂, mapExcept f l₁ = .ok r₁ ∧ mapExcept f l₂ = .ok r₂ ∧ res = r₁ ++ r₂ := by
  intro l₁
  induction l₁ with
  | nil => intro l₂ res h; exact ⟨[], res, rfl, h, rfl⟩
  | cons a as ih =>
    intro l₂ res h
    simp only [List.cons_append, mapExcept, List.append_eq] at h
    cases hfa : f a with
    | error e => rw [hfa] at h; cases h
    | ok b =>
      rw [hfa] at h
      cases hrest : mapExcept f (as ++ l₂) with
      | error e => rw [hrest] at h; cases h
      | ok bs =>
        rw [hrest] at h
        injection h with h
        obtain ⟨r₁, r₂, h₁, h₂, hr⟩ := ih hrest
        refine ⟨b :: r₁, r₂, ?_, h₂, by simp [← h, hr]⟩
        simp only [mapExcept, hfa, h₁]

theorem mapExcept_congr_ok {α β : Type} {f : α → Except Err β} {g : α → β} :
    ∀ {l : List α}, (∀ a ∈ l, f a = .ok (g a)) → mapExcept f l = .ok (l.map g) := by
  intro l
  induction l with
  | nil => intro _; rfl
  | cons a as ih =>
    intro h
    simp only [mapExcept, h a (by simp), ih fun x hx => h x (by simp [hx]), List.map_cons]

theorem mapExcept_mem_ok {α β : Type} {f : α → Except Err β} :
    ∀ {l : List α} {res : List β}, mapExcept f l = .ok res →
      ∀ {a : α}, a ∈ l → ∃ b ∈ res, f a = .ok b := by
  intro l
  induction l with
  | nil => intro res h a ha; cases ha
  | cons x xs ih =>
    intro res h a ha
    simp only [mapExcept] at h
    cases hfa : f x with
    | error e => rw [hfa] at h; cases h
    | ok b =>
      rw [hfa] at h
      cases hrest : mapExcept f xs with
      | error e => rw [hrest] at h; cases h
      | ok bs =>
        rw [hrest] at h
        injection h with h
        rcases List.mem_cons.1 ha with rfl | hmem
        · exact ⟨b, by simp [← h], hfa⟩
        · obtain ⟨b', hb', hfb'⟩ := ih hrest hmem
          exact ⟨b', by simp [← h, hb'], hfb'⟩

theorem predictMatrix_ok_clean {m : Model} {rows : List Row}
    (h : ∀ r ∈ rows, ∀ c ∈ r, c.isSome) :
    predictMatrix (some m) rows = .ok (rows.map fun r => m (r.filterMap id)) := by
  unfold predictMatrix
  refine mapExcept_congr_ok fun r hr => ?_
  have : r.any (·.isNone) = false := by
    simp only [List.any_eq_false]
    intro c hc
    have := h r hr c hc
    simp [Option.isNone, Option.isSome] at this ⊢
    cases c <;> simp_all
  simp [this]

theorem predictMatrix_append_ok {m? : Option Model} {a b : List Row} {ps : List Int}
    (h : predictMatrix m? (a ++ b) = .ok ps) :
    predictMatrix m? a = .ok (ps.take a.length) ∧
      predictMatrix m? b = .ok (ps.drop a.length) := by
  cases m? with
  | none => cases h
  | some m =>
    unfold predictMatrix at h ⊢
    obtain ⟨r₁, r₂, h₁, h₂, hr⟩ := mapExcept_append_ok h
    have hl : r₁.length = a.length := mapExcept_ok_length h₁
    subst hr
    constructor
    · rw [← hl, List.take_left]; exact h₁
    · rw [← hl, List.drop_left]; exact h₂

theorem predictChecked_ok {m? : Option Model} {rows : List Row} {ps : List Int}
    (h : predictChecked m? rows = .ok ps) : predictMatrix m? rows = .ok ps := by
  unfold predictChecked at h
  cases m? with
  | none => cases h
  | some m =>
    dsimp only at h
    split at h
    · cases h
    · exact h

end TrainEval

namespace TrainEval

/-! ### Characterisation of `load_data` and invariants of the split -/

theorem load_data_ok_iff {shuffle : List (Row × Int) → List (Row × Int)}
    {d : Dataset} {t : ℚ} {s : Split} :
    load_data shuffle d t = .ok s ↔
      d.ncols ≠ 0 ∧ 3000 < (completePairs d t).length ∧ s = mkSplit shuffle d t := by
  unfold load_data
  split
  next h0 => simp [h0]
  next h0 =>
    split
    next hle =>
      constructor
      · intro h; cases h
      · rintro ⟨-, hlt, -⟩; omega
    next hle =>
      constructor
      · intro h; injection h with h; exact ⟨h0, by omega, h.symm⟩
      · rintro ⟨-, -, rfl⟩; rfl

theorem labelOf_cases (t : ℚ) (r : List Cell) : labelOf t r = 0 ∨ labelOf t r = 1 := by
  unfold labelOf
  cases h : r.head? with
  | none => simp
  | some c =>
    cases c with
    | none => simp
    | some v => dsimp only; split <;> simp

theorem length_featuresOf (d : Dataset) : (featuresOf d).length = d.rows.length := by
  simp [featuresOf]

theorem length_labelsOf (d : Dataset) (t : ℚ) : (labelsOf d t).length = d.rows.length := by
  simp [labelsOf]

theorem map_fst_pairsOf (d : Dataset) (t : ℚ) :
    (pairsOf d t).map Prod.fst = featuresOf d := by
  unfold pairsOf
  exact List.map_fst_zip _ _ (by simp [length_featuresOf, length_labelsOf])

theorem mem_pairsOf_snd {d : Dataset} {t : ℚ} {p : Row × Int} (h : p ∈ pairsOf d t) :
    p.2 = 0 ∨ p.2 = 1 := by
  obtain ⟨a, b⟩ := p
  have hb := (List.of_mem_zip h).2
  obtain ⟨r, -, rfl⟩ := List.mem_map.1 hb
  exact labelOf_cases t r

theorem mem_pairsOf_fst {d : Dataset} {t : ℚ} {p : Row × Int} (h : p ∈ pairsOf d t) :
    ∃ row ∈ d.rows, p.1 = row.drop 1 := by
  obtain ⟨a, b⟩ := p
  have ha := (List.of_mem_zip h).1
  obtain ⟨r, hr, rfl⟩ := List.mem_map.1 ha
  exact ⟨r, hr, rfl⟩

theorem mem_completePairs {d : Dataset} {t : ℚ} {p : Row × Int}
    (h : p ∈ completePairs d t) : p ∈ pairsOf d t ∧ isMissingRow p.1 = false := by
  have := List.mem_filter.1 h
  simpa using this

theorem mem_missingPairs {d : Dataset} {t : ℚ} {p : Row × Int}
    (h : p ∈ missingPairs d t) : p ∈ pairsOf d t ∧ isMissingRow p.1 = true := by
  have := List.mem_filter.1 h
  simpa using this

theorem mkSplit_perm {shuffle : List (Row × Int) → List (Row × Int)} {d : Dataset} {t : ℚ}
    (hperm : ∀ l, (shuffle l).Perm l) :
    ((mkSplit shuffle d t).x_train ++ (mkSplit shuffle d t).x_test
      ++ (mkSplit shuffle d t).x_missing).Perm (featuresOf d) := by
  unfold mkSplit
  dsimp only
  rw [← List.map_append, List.take_append_drop]
  have h1 : ((shuffle (completePairs d t)).map Prod.fst
      ++ (missingPairs d t).map Prod.fst).Perm
      ((completePairs d t).map Prod.fst ++ (missingPairs d t).map Prod.fst) :=
    ((hperm _).map Prod.fst).append_right _
  refine h1.trans ?_
  rw [← List.map_append]
  have h2 : (completePairs d t ++ missingPairs d t).Perm (pairsOf d t) := by
    have h3 := List.filter_append_perm (fun p : Row × Int => !(isMissingRow p.1)) (pairsOf d t)
    simpa [completePairs, missingPairs, Bool.not_not] using h3
  exact (h2.map Prod.fst).trans (by rw [map_fst_pairsOf])

theorem mkSplit_mem_x_train {shuffle : List (Row × Int) → List (Row × Int)}
    {d : Dataset} {t : ℚ} (hperm : ∀ l, (shuffle l).Perm l) {r : Row}
    (h : r ∈ (mkSplit shuffle d t).x_train) : ∃ p ∈ completePairs d t, p.1 = r := by
  simp only [mkSplit] at h
  obtain ⟨p, hp, rfl⟩ := List.mem_map.1 h
  exact ⟨p, (hperm _).subset (List.take_subset _ _ hp), rfl⟩

theorem mkSplit_mem_x_test {shuffle : List (Row × Int) → List (Row × Int)}
    {d : Dataset} {t : ℚ} (hperm : ∀ l, (shuffle l).Perm l) {r : Row}
    (h : r ∈ (mkSplit shuffle d t).x_test) : ∃ p ∈ completePairs d t, p.1 = r := by
  simp only [mkSplit] at h
  obtain ⟨p, hp, rfl⟩ := List.mem_map.1 h
  exact ⟨p, (hperm _).subset (List.drop_subset _ _ hp), rfl⟩

theorem mkSplit_mem_x_missing {shuffle : List (Row × Int) → List (Row × Int)}
    {d : Dataset} {t : ℚ} {r : Row}
    (h : r ∈ (mkSplit shuffle d t).x_missing) : ∃ p ∈ missingPairs d t, p.1 = r := by
  simp only [mkSplit] at h
  obtain ⟨p, hp, rfl⟩ := List.mem_map.1 h
  exact ⟨p, hp, rfl⟩

theorem mkSplit_mem_y_missing {shuffle : List (Row × Int) → List (Row × Int)}
    {d : Dataset} {t : ℚ} {x : Int}
    (h : x ∈ (mkSplit shuffle d t).y_missing) : x = 0 ∨ x = 1 := by
  simp only [mkSplit] at h
  obtain ⟨p, hp, rfl⟩ := List.mem_map.1 h
  exact mem_pairsOf_snd (mem_missingPairs hp).1

theorem mkSplit_x_train_length {shuffle : List (Row × Int) → List (Row × Int)}
    {d : Dataset} {t : ℚ} (hperm : ∀ l, (shuffle l).Perm l)
    (hgt : 3000 < (completePairs d t).length) :
    (mkSplit shuffle d t).x_train.length = 3000 := by
  simp only [mkSplit]
  rw [List.length_map, List.length_take, (hperm _).length_eq]
  omega

theorem mkSplit_xy_test_length {shuffle : List (Row × Int) → List (Row × Int)}
    {d : Dataset} {t : ℚ} :
    (mkSplit shuffle d t).x_test.length = (mkSplit shuffle d t).y_test.length := by
  simp [mkSplit]

theorem mkSplit_x_test_length {shuffle : List (Row × Int) → List (Row × Int)}
    {d : Dataset} {t : ℚ} (hperm : ∀ l, (shuffle l).Perm l) :
    (mkSplit shuffle d t).x_test.length = (completePairs d t).length - 3000 := by
  simp only [mkSplit]
  rw [List.length_map, List.length_drop, (hperm _).length_eq]

theorem mkSplit_xy_missing_length {shuffle : List (Row × Int) → List (Row × Int)}
    {d : Dataset} {t : ℚ} :
    (mkSplit shuffle d t).x_missing.length = (mkSplit shuffle d t).y_missing.length := by
  simp [mkSplit]

theorem isMissingRow_false_clean {r : Row} (h : isMissingRow r = false) :
    ∀ c ∈ r, c.isSome := by
  intro c hc
  simp only [isMissingRow, List.any_eq_false] at h
  have := h c hc
  cases c <;> simp_all

end TrainEval

namespace TrainEval

/-! ### Concrete datasets used to witness the theorems -/

/-- A 3001-row, 2-column table whose rows are all complete. -/
def D1 : Dataset := ⟨2, List.replicate 3001 [some 1, some 1]⟩

/-- A 3000-row, 2-column table whose rows are all complete. -/
def D3000 : Dataset := ⟨2, List.replicate 3000 [some 1, some 1]⟩

theorem completePairs_D1 : completePairs D1 (1/2) = List.replicate 3001 ([some 1], 1) := by
  unfold completePairs pairsOf featuresOf labelsOf D1
  dsimp only
  rw [List.map_replicate, List.map_replicate, List.zip_replicate',
    List.filter_replicate_of_pos (by norm_num [isMissingRow])]
  norm_num [labelOf]

theorem completePairs_D3000 :
    completePairs D3000 (1/2) = List.replicate 3000 ([some 1], 1) := by
  unfold completePairs pairsOf featuresOf labelsOf D3000
  dsimp only
  rw [List.map_replicate, List.map_replicate, List.zip_replicate',
    List.filter_replicate_of_pos (by norm_num [isMissingRow])]
  norm_num [labelOf]

theorem load_D1 : load_data id D1 (1/2) = .ok (mkSplit id D1 (1/2)) :=
  load_data_ok_iff.2 ⟨by norm_num [D1], by rw [completePairs_D1]; simp, rfl⟩

end TrainEval

namespace TrainEval

/-! ### The claims -/

/-- Claim C1: after a successful `load_data`, the three partitions
`x_train`, `x_test`, `x_missing` together are a permutation of the feature
rows of the input (each input row is covered exactly once); every row of
`train` and `test` has no null among the feature columns; and every row of
`missing` has at least one null feature.  (`shuffle` is the permutation drawn
by `train_test_split`.) -/
theorem C1_partition {shuffle : List (Row × Int) → List (Row × Int)}
    {d : Dataset} {t : ℚ} {s : Split}
    (hperm : ∀ l, (shuffle l).Perm l)
    (hload : load_data shuffle d t = .ok s) :
    (s.x_train ++ s.x_test ++ s.x_missing).Perm (featuresOf d) ∧
    (∀ r ∈ s.x_train ++ s.x_test, ∀ c ∈ r, c.isSome) ∧
    (∀ r ∈ s.x_missing, ∃ c ∈ r, c = none) := by
  obtain ⟨-, -, rfl⟩ := load_data_ok_iff.1 hload
  refine ⟨mkSplit_perm hperm, ?_, ?_⟩
  · intro r hr
    rcases List.mem_append.1 hr with h | h
    · obtain ⟨p, hp, hpr⟩ := mkSplit_mem_x_train hperm h
      rw [← hpr]
      exact isMissingRow_false_clean (mem_completePairs hp).2
    · obtain ⟨p, hp, hpr⟩ := mkSplit_mem_x_test hperm h
      rw [← hpr]
      exact isMissingRow_false_clean (mem_completePairs hp).2
  · intro r hr
    obtain ⟨p, hp, hpr⟩ := mkSplit_mem_x_missing hr
    have hm := (mem_missingPairs hp).2
    simp only [isMissingRow, List.any_eq_true] at hm
    obtain ⟨c, hc, hcn⟩ := hm
    refine ⟨c, by rw [← hpr]; exact hc, ?_⟩
    cases c
    · rfl
    · cases hcn

/-- Witness for C1: the identity shuffle is a permutation, `D1` loads
successfully, and the partition property holds for it. -/
theorem C1_partition_witness :
    (∀ l : List (Row × Int), (id l).Perm l) ∧
    load_data id D1 (1/2) = .ok (mkSplit id D1 (1/2)) ∧
    ((((mkSplit id D1 (1/2)).x_train ++ (mkSplit id D1 (1/2)).x_test
        ++ (mkSplit id D1 (1/2)).x_missing).Perm (featuresOf D1)) ∧
      (∀ r ∈ (mkSplit id D1 (1/2)).x_train ++ (mkSplit id D1 (1/2)).x_test,
        ∀ c ∈ r, c.isSome) ∧
      (∀ r ∈ (mkSplit id D1 (1/2)).x_missing, ∃ c ∈ r, c = none)) :=
  ⟨fun l => List.Perm.refl l, load_D1,
    C1_partition (fun l => List.Perm.refl l) load_D1⟩

/-- Counterexample to claim C2 as stated: `D3000` has exactly 3000 complete
rows (so "at least N = 3000"), yet `load_data` fails with the train-size
`ValueError` instead of producing a 3000-row train partition. -/
theorem C2_counterexample :
    3000 ≤ (completePairs D3000 (1/2)).length ∧
    load_data id D3000 (1/2) = .error .trainSizeError := by
  constructor
  · rw [completePairs_D3000]; simp
  · unfold load_data
    rw [if_neg (by norm_num [D3000]), if_pos (by rw [completePairs_D3000]; simp)]

/-- Claim C2 (amended): for a table with at least one column,
`load_data` fails with the train-size `ValueError` whenever there are at
most 3000 complete rows (in particular whenever there are fewer than 3000),
and succeeds with a train partition of exactly 3000 rows whenever there are
strictly more than 3000 complete rows (`sklearn` requires
`train_size < n_samples`). -/
theorem C2_train_size {shuffle : List (Row × Int) → List (Row × Int)}
    {d : Dataset} {t : ℚ} (hperm : ∀ l, (shuffle l).Perm l) (h0 : d.ncols ≠ 0) :
    ((completePairs d t).length ≤ 3000 →
      load_data shuffle d t = .error .trainSizeError) ∧
    (3000 < (completePairs d t).length →
      ∃ s, load_data shuffle d t = .ok s ∧ s.x_train.length = 3000) := by
  constructor
  · intro hle
    unfold load_data
    rw [if_neg h0, if_pos hle]
  · intro hgt
    exact ⟨mkSplit shuffle d t, load_data_ok_iff.2 ⟨h0, hgt, rfl⟩,
      mkSplit_x_train_length hperm hgt⟩

/-- Witness for (amended) C2 at `D1`: 3001 complete rows, so load succeeds
with a 3000-row train partition. -/
theorem C2_train_size_witness :
    D1.ncols ≠ 0 ∧ 3000 < (completePairs D1 (1/2)).length ∧
    ∃ s, load_data id D1 (1/2) = .ok s ∧ s.x_train.length = 3000 :=
  ⟨by norm_num [D1], by rw [completePairs_D1]; simp,
    (C2_train_size (fun l => List.Perm.refl l) (by norm_num [D1])).2
      (by rw [completePairs_D1]; simp)⟩

end TrainEval

namespace TrainEval

/-- A table with no columns at all. -/
def D0 : Dataset := ⟨0, []⟩

/-- A 3001-row table with a single column (the target): no feature columns. -/
def D8 : Dataset := ⟨1, List.replicate 3001 [some 1]⟩

/-- A table whose target column (column 0) has a null in the first row;
all feature values are present. -/
def D5 : Dataset := ⟨2, [none, some 1] :: List.replicate 3001 [some 1, some 1]⟩

theorem completePairs_D8 : completePairs D8 (1/2) = List.replicate 3001 ([], 1) := by
  unfold completePairs pairsOf featuresOf labelsOf D8
  dsimp only
  rw [List.map_replicate, List.map_replicate, List.zip_replicate',
    List.filter_replicate_of_pos (by norm_num [isMissingRow])]
  norm_num [labelOf]

theorem completePairs_D5 :
    completePairs D5 (1/2) = ([some 1], 0) :: List.replicate 3001 ([some 1], 1) := by
  unfold completePairs pairsOf featuresOf labelsOf D5
  dsimp only
  rw [List.map_cons, List.map_cons, List.map_replicate, List.map_replicate,
    List.zip_cons_cons, List.zip_replicate']
  rw [List.filter_cons_of_pos (by norm_num [isMissingRow, labelOf]),
    List.filter_replicate_of_pos (by norm_num [isMissingRow])]
  norm_num [labelOf]

theorem missingPairs_D5 : missingPairs D5 (1/2) = [] := by
  unfold missingPairs pairsOf featuresOf labelsOf D5
  dsimp only
  rw [List.map_cons, List.map_cons, List.map_replicate, List.map_replicate,
    List.zip_cons_cons, List.zip_replicate']
  rw [List.filter_cons_of_neg (by norm_num [isMissingRow, labelOf]),
    List.filter_replicate_of_neg (by norm_num [isMissingRow])]

theorem colHasNull_D5_zero : colHasNull D5 0 = true := by
  unfold colHasNull D5
  dsimp only
  rw [List.any_cons]
  norm_num

theorem colHasNull_D5_one : colHasNull D5 1 = false := by
  unfold colHasNull D5
  dsimp only
  rw [List.any_cons, List.any_replicate]
  norm_num

theorem load_D5 : load_data id D5 (1/2) = .ok (mkSplit id D5 (1/2)) :=
  load_data_ok_iff.2 ⟨by norm_num [D5], by rw [completePairs_D5]; simp, rfl⟩

theorem load_D8 : load_data id D8 (1/2) = .ok (mkSplit id D8 (1/2)) :=
  load_data_ok_iff.2 ⟨by norm_num [D8], by rw [completePairs_D8]; simp, rfl⟩

/-- Counterexample to claim C8 as stated: `D8` has fewer than 2 columns
(exactly 1), yet `load_data` succeeds — the code only fails (with an
`IndexError` from popping the empty column list) on a 0-column table. -/
theorem C8_counterexample :
    D8.ncols < 2 ∧ load_data id D8 (1/2) = .ok (mkSplit id D8 (1/2)) :=
  ⟨by norm_num [D8], load_D8⟩

/-- Claim C8 (amended): `load_data` fails on malformed schemas only for
0-column tables (`feature_labels.pop(0)` raises `IndexError`); a 1-column
table — no feature columns at all — loads successfully whenever it has more
than 3000 (necessarily complete) rows. -/
theorem C8_no_target {shuffle : List (Row × Int) → List (Row × Int)}
    {d : Dataset} {t : ℚ} :
    (d.ncols = 0 → load_data shuffle d t = .error .indexError) ∧
    (d.ncols = 1 → 3000 < (completePairs d t).length →
      load_data shuffle d t = .ok (mkSplit shuffle d t)) := by
  constructor
  · intro h0
    unfold load_data
    rw [if_pos h0]
  · intro h1 hgt
    exact load_data_ok_iff.2 ⟨by omega, hgt, rfl⟩

/-- Witness for (amended) C8: the 0-column table fails with `IndexError`;
the 1-column table `D8` loads. -/
theorem C8_no_target_witness :
    (D0.ncols = 0 ∧ load_data id D0 (1/2) = .error .indexError) ∧
    (D8.ncols = 1 ∧ 3000 < (completePairs D8 (1/2)).length ∧
      load_data id D8 (1/2) = .ok (mkSplit id D8 (1/2))) :=
  ⟨⟨rfl, (C8_no_target).1 rfl⟩,
    ⟨rfl, by rw [completePairs_D8]; simp,
      (C8_no_target).2 rfl (by rw [completePairs_D8]; simp)⟩⟩

/-- Follows the spec's words for claim C5: the set of feature columns —
excluding the target column 0 — that contain at least one null anywhere in
the full dataset. -/
def specMissingFeatureCols (d : Dataset) : List Nat :=
  (List.range' 1 (d.ncols - 1)).filter (colHasNull d)

/-- Counterexample to claim C5 as stated: in `D5` only the target column
(column 0) has nulls, so the spec's missing-columns set is empty, but the
code computes `columns_missing = [0]` — it scans all columns of the original
table, including the target. -/
theorem C5_counterexample :
    load_data id D5 (1/2) = .ok (mkSplit id D5 (1/2)) ∧
    (mkSplit id D5 (1/2)).columns_missing = [0] ∧
    specMissingFeatureCols D5 = [] := by
  refine ⟨load_D5, ?_, ?_⟩
  · show ((List.range D5.ncols).filter (colHasNull D5)) = [0]
    have : D5.ncols = 2 := rfl
    rw [this]
    rw [show List.range 2 = [0, 1] by rfl]
    rw [List.filter_cons_of_pos colHasNull_D5_zero,
      List.filter_cons_of_neg (by rw [colHasNull_D5_one]; simp)]
    rfl
  · show (List.range' 1 (D5.ncols - 1)).filter (colHasNull D5) = []
    rw [show List.range' 1 (D5.ncols - 1) = [1] by rfl]
    rw [List.filter_cons_of_neg (by rw [colHasNull_D5_one]; simp)]
    rfl

/-- Claim C5 (amended): the missing-columns set computed at load time is the
list of ALL column indices — the target column 0 included, not only feature
columns — whose column contains at least one null anywhere in the dataset. -/
theorem C5_columns_missing {shuffle : List (Row × Int) → List (Row × Int)}
    {d : Dataset} {t : ℚ} {s : Split}
    (hload : load_data shuffle d t = .ok s) (c : Nat) :
    c ∈ s.columns_missing ↔
      c < d.ncols ∧ ∃ r ∈ d.rows, ((r.get? c).getD (some 0)) = none := by
  obtain ⟨-, -, rfl⟩ := load_data_ok_iff.1 hload
  show c ∈ (List.range d.ncols).filter (colHasNull d) ↔ _
  rw [List.mem_filter, List.mem_range]
  simp [colHasNull, List.any_eq_true, Option.isNone_iff_eq_none]

/-- Witness for (amended) C5 at `D5` and column 0. -/
theorem C5_columns_missing_witness :
    load_data id D5 (1/2) = .ok (mkSplit id D5 (1/2)) ∧
    (0 ∈ (mkSplit id D5 (1/2)).columns_missing ↔
      0 < D5.ncols ∧ ∃ r ∈ D5.rows, ((r.get? 0).getD (some 0)) = none) :=
  ⟨load_D5, C5_columns_missing load_D5 0⟩

end TrainEval

namespace TrainEval

/-! ### Accuracy lemmas and claim C3 -/

theorem accuracy_score_ok {t p : List Int} (hlen : t.length = p.length)
    (hne : t.length ≠ 0) :
    accuracy_score t p =
      .ok ((((t.zip p).countP fun q => q.1 = q.2) : ℚ) / (t.length : ℚ)) := by
  unfold accuracy_score
  rw [if_neg (fun hc => hc hlen), if_neg hne]

theorem accuracy_sentinel_zero {y : List Int} {n : Nat}
    (hy : ∀ x ∈ y, x = 0 ∨ x = 1) (hlen : y.length = n) (hne : y ≠ []) :
    accuracy_score y (List.replicate n (-1)) = .ok 0 := by
  rw [accuracy_score_ok (by simp [hlen]) (fun h => hne (List.length_eq_zero.1 h))]
  have hz : ((y.zip (List.replicate n (-1))).countP fun q => q.1 = q.2) = 0 := by
    rw [List.countP_eq_zero]
    intro q hq
    have h1 := (List.of_mem_zip hq).1
    have h2 := List.eq_of_mem_replicate (List.of_mem_zip hq).2
    rcases hy _ h1 with h | h <;> simp [h2, h]
  rw [hz]
  norm_num

/-- Claim C3: for every loaded dataset whose missing partition is nonempty,
strategy A records a missing-only accuracy of exactly 0.0 — every missing row
is assigned the sentinel label -1, which lies outside the true-label set
{0,1}. -/
theorem C3_abstention {shuffle : List (Row × Int) → List (Row × Int)}
    {d : Dataset} {t : ℚ} {s : Split}
    (hperm : ∀ l, (shuffle l).Perm l)
    (hload : load_data shuffle d t = .ok s)
    (hne : s.y_missing ≠ [])
    (m : Model) (fitf : List CRow → List Int → Model)
    (knnf : List Row → List Row → List Row) :
    ∃ a, runA (evalCtx s (some m) fitf knnf) = ⟨some a, some 0, none⟩ := by
  obtain ⟨-, hgt, rfl⟩ := load_data_ok_iff.1 hload
  have hxtne : ¬ (mkSplit shuffle d t).x_test.length = 0 := by
    rw [@mkSplit_x_test_length shuffle d t hperm]
    omega
  have hclean : ∀ r ∈ (mkSplit shuffle d t).x_test, ∀ c ∈ r, c.isSome := by
    intro r hr
    obtain ⟨p, hp, hpr⟩ := mkSplit_mem_x_test hperm hr
    rw [← hpr]
    exact isMissingRow_false_clean (mem_completePairs hp).2
  have hpred := predictMatrix_ok_clean (m := m) hclean
  have hy01 : ∀ x ∈ (mkSplit shuffle d t).y_missing, x = 0 ∨ x = 1 :=
    fun x hx => mkSplit_mem_y_missing hx
  have hxymiss := @mkSplit_xy_missing_length shuffle d t
  have hxytest := @mkSplit_xy_test_length shuffle d t
  have hlen1 : ((mkSplit shuffle d t).y_test ++ (mkSplit shuffle d t).y_missing).length =
      (((mkSplit shuffle d t).x_test.map fun r => m (r.filterMap id)) ++
        List.replicate (mkSplit shuffle d t).x_missing.length (-1 : Int)).length := by
    simp [← hxytest, ← hxymiss]
  have hne1 : ((mkSplit shuffle d t).y_test ++ (mkSplit shuffle d t).y_missing).length ≠ 0 := by
    simp only [List.length_append]
    intro hc
    exact hne (List.length_eq_zero.1 (by omega))
  unfold runA
  simp only [evalCtx]
  rw [show predictChecked (some m) (mkSplit shuffle d t).x_test
      = predictMatrix (some m) (mkSplit shuffle d t).x_test from by
    unfold predictChecked
    dsimp only
    rw [if_neg hxtne]]
  rw [hpred]
  dsimp only
  rw [accuracy_score_ok hlen1 hne1]
  dsimp only
  rw [accuracy_sentinel_zero hy01 hxymiss.symm hne]
  exact ⟨_, rfl⟩

/-- A 3002-row table: 3001 complete rows plus one row whose only feature is
null (and whose target 0 thresholds to label 0). -/
def D2 : Dataset := ⟨2, List.replicate 3001 [some 1, some 1] ++ [[some 0, none]]⟩

theorem completePairs_D2 : completePairs D2 (1/2) = List.replicate 3001 ([some 1], 1) := by
  unfold completePairs pairsOf featuresOf labelsOf D2
  dsimp only
  rw [List.map_append, List.map_append, List.map_replicate, List.map_replicate,
    List.zip_append (by simp), List.zip_replicate']
  rw [List.filter_append, List.filter_replicate_of_pos (by norm_num [isMissingRow])]
  norm_num [isMissingRow, labelOf]

theorem missingPairs_D2 : missingPairs D2 (1/2) = [([none], 0)] := by
  unfold missingPairs pairsOf featuresOf labelsOf D2
  dsimp only
  rw [List.map_append, List.map_append, List.map_replicate, List.map_replicate,
    List.zip_append (by simp), List.zip_replicate']
  rw [List.filter_append, List.filter_replicate_of_neg (by norm_num [isMissingRow])]
  norm_num [isMissingRow, labelOf]

theorem load_D2 : load_data id D2 (1/2) = .ok (mkSplit id D2 (1/2)) :=
  load_data_ok_iff.2 ⟨by norm_num [D2], by rw [completePairs_D2]; simp, rfl⟩

theorem y_missing_D2 : (mkSplit id D2 (1/2)).y_missing = [0] := by
  show (missingPairs D2 (1/2)).map Prod.snd = [0]
  rw [missingPairs_D2]
  rfl

/-- Witness for C3 at `D2` with a constant-0 baseline model. -/
theorem C3_abstention_witness :
    (∀ l : List (Row × Int), (id l).Perm l) ∧
    load_data id D2 (1/2) = .ok (mkSplit id D2 (1/2)) ∧
    (mkSplit id D2 (1/2)).y_missing ≠ [] ∧
    ∃ a, runA (evalCtx (mkSplit id D2 (1/2)) (some (fun _ => 0)) (fun _ _ _ => 0)
      (fun _ r => r)) = ⟨some a, some 0, none⟩ :=
  ⟨fun l => List.Perm.refl l, load_D2, by rw [y_missing_D2]; simp,
    C3_abstention (fun l => List.Perm.refl l) load_D2
      (by rw [y_missing_D2]; simp) (fun _ => 0) (fun _ _ _ => 0) (fun _ r => r)⟩

end TrainEval

namespace TrainEval

/-! ### Claim C4 -/

/-- Claim C4: for strategies D, E and F the test features are left untouched
(the strategies only transform `x_missing`), so whenever the combined-set
prediction vector (baseline model on `x_test ++ imputed x_missing`) exists,
its first `|x_test|` entries are exactly the baseline model's direct
predictions on the unmodified `x_test`. -/
theorem C4_test_unaltered (c : Ctx) :
    (∀ ps, combinedPredD c = .ok ps →
      predictMatrix c.model c.x_test = .ok (ps.take c.x_test.length)) ∧
    (∀ ps, combinedPredE c = .ok ps →
      predictMatrix c.model c.x_test = .ok (ps.take c.x_test.length)) ∧
    (∀ ps, combinedPredF c = .ok ps →
      predictMatrix c.model c.x_test = .ok (ps.take c.x_test.length)) := by
  refine ⟨?_, ?_, ?_⟩
  · intro ps h
    unfold combinedPredD at h
    cases himp : imputeWith colMean c with
    | error e => rw [himp] at h; cases h
    | ok imp =>
      rw [himp] at h
      dsimp only at h
      exact (predictMatrix_append_ok (predictChecked_ok h)).1
  · intro ps h
    unfold combinedPredE at h
    cases himp : imputeWith colMedian c with
    | error e => rw [himp] at h; cases h
    | ok imp =>
      rw [himp] at h
      dsimp only at h
      exact (predictMatrix_append_ok (predictChecked_ok h)).1
  · intro ps h
    unfold combinedPredF at h
    exact (predictMatrix_append_ok (predictChecked_ok h)).1

/-- A small concrete context for the C4 witness: one clean test row, one
missing row whose single feature is null. -/
def C4c : Ctx :=
  { x_train := [[some 1]], y_train := [1], x_test := [[some 2]], y_test := [1],
    x_missing := [[none]], y_missing := [0], feature_labels := [1],
    columns_missing := [1], model := some (fun _ => 0), fit := fun _ _ _ => 0,
    knn := fun _ _ => [[some 0]] }

/-- Witness for C4: on `C4c` all three combined prediction vectors exist and
their first `|x_test|` entries match the direct test predictions. -/
theorem C4_test_unaltered_witness :
    (combinedPredD C4c = .ok [0, 0] ∧
      predictMatrix C4c.model C4c.x_test = .ok ([0, 0].take C4c.x_test.length)) ∧
    (combinedPredE C4c = .ok [0, 0] ∧
      predictMatrix C4c.model C4c.x_test = .ok ([0, 0].take C4c.x_test.length)) ∧
    (combinedPredF C4c = .ok [0, 0] ∧
      predictMatrix C4c.model C4c.x_test = .ok ([0, 0].take C4c.x_test.length)) :=
  ⟨⟨by decide, (C4_test_unaltered C4c).1 [0, 0] (by decide)⟩,
    ⟨by decide, (C4_test_unaltered C4c).2.1 [0, 0] (by decide)⟩,
    ⟨by decide, (C4_test_unaltered C4c).2.2 [0, 0] (by decide)⟩⟩

end TrainEval

namespace TrainEval

/-! ### `np.argmax` / `np.bincount` lemmas and claim C9 -/

theorem getD_mem_of_lt {xs : List Nat} {i : Nat} (h : i < xs.length) :
    xs.getD i 0 ∈ xs := by
  rw [List.getD_eq_getElem?_getD, List.getElem?_eq_getElem h]
  exact List.mem_iff_getElem?.2 ⟨i, List.getElem?_eq_getElem h⟩

theorem getD_eq_zero_of_ge {xs : List Nat} {i : Nat} (h : xs.length ≤ i) :
    xs.getD i 0 = 0 := by
  rw [List.getD_eq_getElem?_getD, List.getElem?_eq_none h]
  rfl

theorem getD_of_getElem {xs : List Nat} {j : Nat} {z : Nat} (hj : j < xs.length)
    (h : xs.get ⟨j, hj⟩ = z) : xs.getD j 0 = z := by
  rw [List.getD_eq_getElem?_getD, List.getElem?_eq_getElem hj]
  simpa using h

theorem not_all_le_exists {ys : List Nat} {x : Nat} (hall : ¬ ys.all (· ≤ x) = true) :
    ∃ z ∈ ys, x < z := by
  by_contra hc
  push_neg at hc
  exact hall (List.all_eq_true.2 fun z hz => by simpa using hc z hz)

theorem argmaxIdx_cons (x : Nat) (ys : List Nat) :
    argmaxIdx (x :: ys) = if ys.all (· ≤ x) = true then 0 else argmaxIdx ys + 1 := rfl

theorem argmaxIdx_cons_pos {x : Nat} {ys : List Nat} (h : ys.all (· ≤ x) = true) :
    argmaxIdx (x :: ys) = 0 := by
  rw [argmaxIdx_cons, if_pos h]

theorem argmaxIdx_cons_neg {x : Nat} {ys : List Nat} (h : ¬ ys.all (· ≤ x) = true) :
    argmaxIdx (x :: ys) = argmaxIdx ys + 1 := by
  rw [argmaxIdx_cons, if_neg h]

theorem argmaxIdx_lt_length : ∀ {xs : List Nat}, xs ≠ [] → argmaxIdx xs < xs.length := by
  intro xs
  induction xs with
  | nil => intro h; exact absurd rfl h
  | cons x ys ih =>
    intro _
    by_cases hall : ys.all (· ≤ x) = true
    · rw [argmaxIdx_cons_pos hall]
      simp
    · rw [argmaxIdx_cons_neg hall]
      have hyne : ys ≠ [] := by rintro rfl; exact hall (by simp)
      have := ih hyne
      simp only [List.length_cons]
      omega

theorem argmaxIdx_ge : ∀ (xs : List Nat) (i : Nat),
    xs.getD i 0 ≤ xs.getD (argmaxIdx xs) 0 := by
  intro xs
  induction xs with
  | nil => intro i; simp [argmaxIdx]
  | cons x ys ih =>
    intro i
    by_cases hall : ys.all (· ≤ x) = true
    · rw [argmaxIdx_cons_pos hall, List.getD_cons_zero]
      cases i with
      | zero => simp
      | succ j =>
        rw [List.getD_cons_succ]
        rcases Nat.lt_or_ge j ys.length with hj | hj
        · exact (by simpa using List.all_eq_true.1 hall _ (getD_mem_of_lt hj))
        · rw [getD_eq_zero_of_ge hj]
          exact Nat.zero_le x
    · rw [argmaxIdx_cons_neg hall]
      rw [List.getD_cons_succ]
      cases i with
      | zero =>
        rw [List.getD_cons_zero]
        obtain ⟨z, hz, hxz⟩ := not_all_le_exists hall
        obtain ⟨⟨j, hj⟩, hgj⟩ := List.mem_iff_get.1 hz
        have h1 : ys.getD j 0 = z := getD_of_getElem hj hgj
        have h2 := ih j
        rw [h1] at h2
        exact le_trans (Nat.le_of_lt hxz) h2
      | succ j =>
        rw [List.getD_cons_succ]
        exact ih j

theorem argmaxIdx_first : ∀ {xs : List Nat}, xs ≠ [] →
    ∀ i : Nat, xs.getD i 0 = xs.getD (argmaxIdx xs) 0 → argmaxIdx xs ≤ i := by
  intro xs
  induction xs with
  | nil => intro h; exact absurd rfl h
  | cons x ys ih =>
    intro _ i hi
    by_cases hall : ys.all (· ≤ x) = true
    · rw [argmaxIdx_cons_pos hall]
      exact Nat.zero_le i
    · rw [argmaxIdx_cons_neg hall] at hi ⊢
      have hyne : ys ≠ [] := by rintro rfl; exact hall (by simp)
      cases i with
      | zero =>
        exfalso
        rw [List.getD_cons_zero, List.getD_cons_succ] at hi
        obtain ⟨z, hz, hxz⟩ := not_all_le_exists hall
        obtain ⟨⟨j, hj⟩, hgj⟩ := List.mem_iff_get.1 hz
        have h1 : ys.getD j 0 = z := getD_of_getElem hj hgj
        have h2 := argmaxIdx_ge ys j
        rw [h1, ← hi] at h2
        exact Nat.not_le.2 hxz h2
      | succ j =>
        rw [List.getD_cons_succ, List.getD_cons_succ] at hi
        exact Nat.succ_le_succ (ih hyne j hi)

theorem le_natMaxOf {l : List Nat} {a : Nat} (h : a ∈ l) : a ≤ natMaxOf l := by
  unfold natMaxOf
  induction l with
  | nil => cases h
  | cons x xs ih =>
    rcases List.mem_cons.1 h with rfl | hmem
    · exact le_max_left _ _
    · exact le_trans (ih hmem) (le_max_right _ _)

end TrainEval

namespace TrainEval

theorem majorityClass_eq {y : List Int} (hne : y ≠ []) (hany : y.any (· < 0) = false) :
    majorityClass y = .ok ((argmaxIdx ((List.range (natMaxOf (y.map Int.toNat) + 1)).map
      fun (i : Nat) => y.count (i : Int)) : Nat) : Int) := by
  cases y with
  | nil => exact absurd rfl hne
  | cons a l =>
    unfold majorityClass
    rw [if_neg (by rw [hany]; simp)]

/-- Claim C9: strategy B's majority class, `np.bincount(y_train).argmax()`
as embedded in `majorityClass`, is a mode of the (nonnegative) train labels,
and when two labels are tied for most frequent the smaller label wins
(`argmax` returns the first occurrence of the maximum). -/
theorem C9_majority {y : List Int} (hne : y ≠ []) (hnn : ∀ x ∈ y, 0 ≤ x) :
    ∃ k : Int, majorityClass y = .ok k ∧ 0 ≤ k ∧
      (∀ l : Int, y.count l ≤ y.count k) ∧
      (∀ l : Int, y.count l = y.count k → k ≤ l) := by
  have hany : y.any (· < 0) = false := by
    rw [List.any_eq_false]
    intro x hx
    simpa using hnn x hx
  set M := natMaxOf (y.map Int.toNat) with hM
  set counts := (List.range (M + 1)).map (fun (i : Nat) => y.count (i : Int)) with hcounts
  have hclen : counts.length = M + 1 := by rw [hcounts]; simp
  have hcne : counts ≠ [] := by
    intro hc
    rw [hc] at hclen
    cases hclen
  have hk0lt : argmaxIdx counts < M + 1 := by
    have := argmaxIdx_lt_length hcne
    omega
  have countsD : ∀ i, i < M + 1 → counts.getD i 0 = y.count (i : Int) := by
    intro i hi
    rw [hcounts, List.getD_eq_getElem?_getD, List.getElem?_map, List.getElem?_range hi]
    rfl
  have hbound : ∀ x ∈ y, x.toNat ≤ M := by
    intro x hx
    exact le_natMaxOf (List.mem_map_of_mem _ hx)
  have hcount0 : ∀ l : Int, (l < 0 ∨ M < l.toNat) → y.count l = 0 := by
    intro l hl
    rw [List.count_eq_zero]
    intro hmem
    rcases hl with hl | hl
    · have := hnn l hmem
      omega
    · have := hbound l hmem
      omega
  have hcountk : y.count ((argmaxIdx counts : Nat) : Int) =
      counts.getD (argmaxIdx counts) 0 := by
    rw [countsD (argmaxIdx counts) hk0lt]
  obtain ⟨h0, t0, hyy⟩ := List.exists_cons_of_ne_nil hne
  have hh0 : h0 ∈ y := by rw [hyy]; exact List.mem_cons_self _ _
  have hposk : 0 < counts.getD (argmaxIdx counts) 0 := by
    have h1 : counts.getD h0.toNat 0 = y.count h0 := by
      rw [countsD h0.toNat (by have := hbound h0 hh0; omega),
        Int.toNat_of_nonneg (hnn h0 hh0)]
    have h2 := argmaxIdx_ge counts h0.toNat
    rw [h1] at h2
    have h3 : 0 < y.count h0 := List.count_pos_iff.2 hh0
    omega
  refine ⟨((argmaxIdx counts : Nat) : Int), majorityClass_eq hne hany, by omega, ?_, ?_⟩
  · intro l
    rcases Int.lt_or_le l 0 with hl | hl
    · rw [hcount0 l (Or.inl hl)]
      exact Nat.zero_le _
    · rcases Nat.lt_or_ge M l.toNat with hMl | hMl
      · rw [hcount0 l (Or.inr hMl)]
        exact Nat.zero_le _
      · have h1 : counts.getD l.toNat 0 = y.count l := by
          rw [countsD l.toNat (by omega), Int.toNat_of_nonneg hl]
        have h2 := argmaxIdx_ge counts l.toNat
        rw [h1] at h2
        rw [hcountk]
        exact h2
  · intro l htie
    rcases Int.lt_or_le l 0 with hl | hl
    · exfalso
      rw [hcount0 l (Or.inl hl), hcountk] at htie
      omega
    · rcases Nat.lt_or_ge M l.toNat with hMl | hMl
      · exfalso
        rw [hcount0 l (Or.inr hMl), hcountk] at htie
        omega
      · have h1 : counts.getD l.toNat 0 = y.count l := by
          rw [countsD l.toNat (by omega), Int.toNat_of_nonneg hl]
        have h2 : counts.getD l.toNat 0 = counts.getD (argmaxIdx counts) 0 := by
          rw [h1, htie, hcountk]
        have h3 := argmaxIdx_first hcne l.toNat h2
        omega

/-- Witness for C9: the labels [0, 1] are tied for most frequent; the mode
returned is the smaller label 0, and both mode properties hold. -/
theorem C9_majority_witness :
    ([0, 1] : List Int) ≠ [] ∧ (∀ x ∈ ([0, 1] : List Int), 0 ≤ x) ∧
    ∃ k : Int, majorityClass [0, 1] = .ok k ∧ 0 ≤ k ∧
      (∀ l : Int, ([0, 1] : List Int).count l ≤ ([0, 1] : List Int).count k) ∧
      (∀ l : Int, ([0, 1] : List Int).count l = ([0, 1] : List Int).count k → k ≤ l) :=
  ⟨by decide, by decide, C9_majority (by decide) (by decide)⟩

end TrainEval

namespace TrainEval

/-! ### Claim C7 and the machinery of the unguarded strategy sequence -/

/-- Claim C7: calling phases out of order fails.  `train_model` before
`load_data` passes the `None` fields to `sklearn.fit`, which rejects them
(`ValueError` — the spec's `NotInitializedError`); `evaluate_model` after
`load_data` but before `train_model` fails at the very first
`model.predict` (`NotFittedError`), leaving both accuracy mappings exactly
as they were. -/
theorem C7_phase_order (h : Harness) :
    (h.split = none → train_model h = .error .valueError) ∧
    (∀ sp, h.split = some sp → h.fitted = none →
      (evaluate_model h).2 = some .notFittedError ∧
      (evaluate_model h).1.acc_entire = h.acc_entire ∧
      (evaluate_model h).1.acc_missing = h.acc_missing) := by
  constructor
  · intro hsp
    unfold train_model
    rw [hsp]
  · intro sp hsp hm
    have hctx : (sp.toCtx h).model = none := by
      simp [Split.toCtx, evalCtx, hm]
    have hA : runA (sp.toCtx h) = ⟨none, none, some .notFittedError⟩ := by
      unfold runA
      rw [show predictChecked (sp.toCtx h).model (sp.toCtx h).x_test =
        .error .notFittedError by rw [hctx]; rfl]
    have hrun : runAll (sp.toCtx h) strategyOrder (h.acc_entire, h.acc_missing) =
        ((h.acc_entire ++ [], h.acc_missing ++ []), some .notFittedError) := by
      show runAll _ (.A :: [.B, .C, .D, .E, .F]) _ = _
      unfold runAll
      rw [show runStrategy .A (sp.toCtx h) = runA (sp.toCtx h) from rfl, hA]
      simp
    unfold evaluate_model
    rw [hsp]
    dsimp only
    rw [hrun]
    simp

/-- The data and dummy algorithms for the C7 witness. -/
def fit0 : List CRow → List Int → Model := fun _ _ _ => 0

def knn0 : List Row → List Row → List Row := fun _ r => r

def H7 : Harness := initHarness fit0 knn0 ⟨2, []⟩ (1/2)

def SP7 : Split :=
  { x_train := [], y_train := [], x_test := [[some 1]], y_test := [1],
    x_missing := [[none]], y_missing := [0], missingMask := [false, true],
    feature_labels := [1], columns_missing := [1] }

def H7L : Harness := {H7 with split := some SP7}

/-- Witness for C7: the freshly initialised harness fails `train_model`;
the loaded-but-untrained harness fails `evaluate_model` with
`NotFittedError` and records nothing. -/
theorem C7_phase_order_witness :
    (H7.split = none ∧ train_model H7 = .error .valueError) ∧
    (H7L.split = some SP7 ∧ H7L.fitted = none ∧
      (evaluate_model H7L).2 = some .notFittedError ∧
      (evaluate_model H7L).1.acc_entire = H7L.acc_entire ∧
      (evaluate_model H7L).1.acc_missing = H7L.acc_missing) :=
  ⟨⟨rfl, (C7_phase_order H7).1 rfl⟩,
    ⟨rfl, rfl, (C7_phase_order H7L).2 SP7 rfl rfl⟩⟩

theorem runA_shape (c : Ctx) :
    (runA c).err? = none → ∃ a b, runA c = ⟨some a, some b, none⟩ := by
  unfold runA
  repeat' split
  all_goals intro h
  all_goals first
    | exact ⟨_, _, rfl⟩
    | cases h

theorem runB_shape (c : Ctx) :
    (runB c).err? = none → ∃ a b, runB c = ⟨some a, some b, none⟩ := by
  unfold runB
  repeat' split
  all_goals intro h
  all_goals first
    | exact ⟨_, _, rfl⟩
    | cases h

theorem runC_shape (c : Ctx) :
    (runC c).err? = none → ∃ a b, runC c = ⟨some a, some b, none⟩ := by
  unfold runC
  repeat' split
  all_goals intro h
  all_goals first
    | exact ⟨_, _, rfl⟩
    | cases h

theorem runImpute_shape (stat : List Cell → Option ℚ) (c : Ctx) :
    (runImpute stat c).err? = none →
      ∃ a b, runImpute stat c = ⟨some a, some b, none⟩ := by
  unfold runImpute
  repeat' split
  all_goals intro h
  all_goals first
    | exact ⟨_, _, rfl⟩
    | cases h

theorem runF_shape (c : Ctx) :
    (runF c).err? = none → ∃ a b, runF c = ⟨some a, some b, none⟩ := by
  unfold runF
  repeat' split
  all_goals intro h
  all_goals first
    | exact ⟨_, _, rfl⟩
    | cases h

theorem runStrategy_shape (c : Ctx) (s : Strategy) :
    (runStrategy s c).err? = none →
      ∃ a b, runStrategy s c = ⟨some a, some b, none⟩ := by
  cases s
  · exact runA_shape c
  · exact runB_shape c
  · exact runC_shape c
  · exact runImpute_shape colMean c
  · exact runImpute_shape colMedian c
  · exact runF_shape c

theorem runAll_break (c : Ctx) (e : Err) (a? : Option ℚ) :
    ∀ (pre : List Strategy) (sf : Strategy) (post : List Strategy) (de dm : Dict),
      (∀ j ∈ pre, (runStrategy j c).err? = none) →
      runStrategy sf c = ⟨a?, none, some e⟩ →
      runAll c (pre ++ sf :: post) (de, dm) =
        ((de ++ pre.map (fun j => (j, ((runStrategy j c).entire?).getD 0))
            ++ (a?.map fun a => (sf, a)).toList,
          dm ++ pre.map (fun j => (j, ((runStrategy j c).missing?).getD 0))), some e) := by
  intro pre
  induction pre with
  | nil =>
    intro sf post de dm hpre hfail
    simp only [List.nil_append, runAll]
    rw [hfail]
    simp
  | cons s rest ih =>
    intro sf post de dm hpre hfail
    obtain ⟨a, b, hs⟩ := runStrategy_shape c s (hpre s (by simp))
    simp only [List.cons_append, runAll]
    rw [hs]
    simp only [Option.map_some', Option.toList_some, List.append_eq]
    rw [ih sf post _ _ (fun j hj => hpre j (by simp [hj])) hfail]
    simp [hs]


end TrainEval

namespace TrainEval

/-! ### Lemmas for claim C10: imputation fills every null -/

theorem evalCtx_x_train (sp : Split) (m? : Option Model)
    (f : List CRow → List Int → Model) (k : List Row → List Row → List Row) :
    (evalCtx sp m? f k).x_train = sp.x_train := rfl

theorem evalCtx_x_missing (sp : Split) (m? : Option Model)
    (f : List CRow → List Int → Model) (k : List Row → List Row → List Row) :
    (evalCtx sp m? f k).x_missing = sp.x_missing := rfl

theorem evalCtx_feature_labels (sp : Split) (m? : Option Model)
    (f : List CRow → List Int → Model) (k : List Row → List Row → List Row) :
    (evalCtx sp m? f k).feature_labels = sp.feature_labels := rfl

theorem evalCtx_columns_missing (sp : Split) (m? : Option Model)
    (f : List CRow → List Int → Model) (k : List Row → List Row → List Row) :
    (evalCtx sp m? f k).columns_missing = sp.columns_missing := rfl

theorem mkSplit_feature_labels (shuffle : List (Row × Int) → List (Row × Int))
    (d : Dataset) (t : ℚ) :
    (mkSplit shuffle d t).feature_labels = List.range' 1 (d.ncols - 1) := rfl

theorem mkSplit_columns_missing (shuffle : List (Row × Int) → List (Row × Int))
    (d : Dataset) (t : ℚ) :
    (mkSplit shuffle d t).columns_missing =
      (List.range d.ncols).filter (colHasNull d) := rfl

theorem colPos_range' : ∀ (k s c : Nat), s ≤ c → c < s + k →
    colPos (List.range' s k) c = .ok (c - s) := by
  intro k
  induction k with
  | zero =>
    intro s c h1 h2
    exact absurd h2 (by omega)
  | succ n ih =>
    intro s c h1 h2
    rw [List.range'_succ]
    unfold colPos
    by_cases hc : s = c
    · rw [if_pos hc]
      rw [show c - s = 0 by omega]
    · rw [if_neg hc]
      rw [ih (s + 1) c (by omega) (by omega)]
      show Except.ok (c - (s + 1) + 1) = Except.ok (c - s)
      congr 1
      omega

theorem fillCell_null_source {j0 : Nat} {v : Option ℚ} {r : Row} {j : Nat}
    (h : (fillCell j0 v r).get? j = some none) :
    r.get? j = some none ∧ (j ≠ j0 ∨ v = none) := by
  unfold fillCell at h
  split at h
  next hj0 =>
    by_cases hjj : j = j0
    · subst hjj
      have hlt : j < r.length := by
        by_contra hge
        rw [List.get?_eq_getElem?, List.getElem?_eq_none (by omega)] at hj0
        cases hj0
      rw [List.get?_eq_getElem?, List.getElem?_set_self (by simpa using hlt)] at h
      injection h with h
      exact ⟨hj0, Or.inr h⟩
    · rw [List.get?_eq_getElem?, List.getElem?_set_ne (fun hh => hjj hh.symm)] at h
      rw [List.get?_eq_getElem?]
      exact ⟨h, Or.inl hjj⟩
  next hj0 =>
    refine ⟨h, Or.inl ?_⟩
    intro hjj
    subst hjj
    exact hj0 h

theorem foldl_fill_map (dict : List (Nat × Option ℚ)) :
    ∀ rows : List Row,
      dict.foldl (fun rows jv => rows.map (fillCell jv.1 jv.2)) rows =
        rows.map (fun r => dict.foldl (fun r jv => fillCell jv.1 jv.2 r) r) := by
  induction dict with
  | nil => intro rows; simp
  | cons jv ds ih =>
    intro rows
    simp only [List.foldl_cons]
    rw [ih (rows.map (fillCell jv.1 jv.2)), List.map_map]
    rfl

theorem foldl_fillCell_isSome (dict : List (Nat × Option ℚ)) :
    ∀ (r : Row),
      (∀ j, r.get? j = some none → ∃ v, (j, some v) ∈ dict) →
      ∀ cell ∈ dict.foldl (fun r jv => fillCell jv.1 jv.2 r) r, cell.isSome := by
  induction dict with
  | nil =>
    intro r hcov cell hcell
    simp only [List.foldl_nil] at hcell
    obtain ⟨j, hj⟩ := List.mem_iff_get?.1 hcell
    cases cell with
    | some v => rfl
    | none =>
      obtain ⟨v, hv⟩ := hcov j hj
      cases hv
  | cons jv ds ih =>
    intro r hcov cell hcell
    rw [List.foldl_cons] at hcell
    refine ih (fillCell jv.1 jv.2 r) ?_ cell hcell
    intro j hj
    obtain ⟨horig, hcase⟩ := fillCell_null_source hj
    obtain ⟨v, hv⟩ := hcov j horig
    rcases List.mem_cons.1 hv with heq | hmem
    · exfalso
      rw [← heq] at hcase
      simp at hcase
    · exact ⟨v, hmem⟩

theorem colMean_isSome {col : List Cell} (hne : col ≠ [])
    (hall : ∀ x ∈ col, x.isSome) : (colMean col).isSome := by
  obtain ⟨h0, t0, rfl⟩ := List.exists_cons_of_ne_nil hne
  have h0s := hall h0 (List.mem_cons_self _ _)
  obtain ⟨v, rfl⟩ := Option.isSome_iff_exists.1 h0s
  unfold colMean
  rw [List.filterMap_cons]
  dsimp only
  rw [if_neg (by simp)]
  rfl

theorem colMedian_isSome {col : List Cell} (hne : col ≠ [])
    (hall : ∀ x ∈ col, x.isSome) : (colMedian col).isSome := by
  obtain ⟨h0, t0, rfl⟩ := List.exists_cons_of_ne_nil hne
  have h0s := hall h0 (List.mem_cons_self _ _)
  obtain ⟨v, rfl⟩ := Option.isSome_iff_exists.1 h0s
  unfold colMedian
  rw [List.filterMap_cons]
  dsimp only
  rw [if_neg (by simp)]
  rfl

theorem mkSplit_widths {shuffle : List (Row × Int) → List (Row × Int)}
    {d : Dataset} {t : ℚ} (hperm : ∀ l, (shuffle l).Perm l)
    (hw : ∀ r ∈ d.rows, r.length = d.ncols) :
    ∀ r ∈ (mkSplit shuffle d t).x_missing ++ (mkSplit shuffle d t).x_train,
      r.length = d.ncols - 1 := by
  intro r hr
  have hmem : ∃ p ∈ pairsOf d t, p.1 = r := by
    rcases List.mem_append.1 hr with h | h
    · obtain ⟨p, hp, hpr⟩ := mkSplit_mem_x_missing h
      exact ⟨p, (mem_missingPairs hp).1, hpr⟩
    · obtain ⟨p, hp, hpr⟩ := mkSplit_mem_x_train hperm h
      exact ⟨p, (mem_completePairs hp).1, hpr⟩
  obtain ⟨p, hp, hpr⟩ := hmem
  obtain ⟨row, hrow, hrowp⟩ := mem_pairsOf_fst hp
  rw [← hpr, hrowp, List.length_drop, hw row hrow]

theorem mkSplit_train_clean {shuffle : List (Row × Int) → List (Row × Int)}
    {d : Dataset} {t : ℚ} (hperm : ∀ l, (shuffle l).Perm l) :
    ∀ r ∈ (mkSplit shuffle d t).x_train, ∀ cell ∈ r, cell.isSome := by
  intro r hr
  obtain ⟨p, hp, hpr⟩ := mkSplit_mem_x_train hperm hr
  rw [← hpr]
  exact isMissingRow_false_clean (mem_completePairs hp).2

end TrainEval

namespace TrainEval

theorem imputeWith_total {shuffle : List (Row × Int) → List (Row × Int)}
    {d : Dataset} {t : ℚ}
    (hperm : ∀ l, (shuffle l).Perm l)
    (hw : ∀ r ∈ d.rows, r.length = d.ncols)
    (htgt : ∀ r ∈ d.rows, ((r.get? 0).getD (some 0)) ≠ none)
    (hgt : 3000 < (completePairs d t).length)
    {stat : List Cell → Option ℚ}
    (hstat : ∀ col : List Cell, col ≠ [] → (∀ x ∈ col, x.isSome) → (stat col).isSome)
    (m? : Option Model) (fitf : List CRow → List Int → Model)
    (knnf : List Row → List Row → List Row) :
    imputeWith stat (evalCtx (mkSplit shuffle d t) m? fitf knnf) =
      .ok ((((List.range d.ncols).filter (colHasNull d)).map fun co =>
        (co - 1, stat ((mkSplit shuffle d t).x_train.map
          fun r => (r.get? (co - 1)).getD none))).foldl
            (fun rows jv => rows.map (fillCell jv.1 jv.2))
            (mkSplit shuffle d t).x_missing) ∧
    ∀ r ∈ (((List.range d.ncols).filter (colHasNull d)).map fun co =>
        (co - 1, stat ((mkSplit shuffle d t).x_train.map
          fun r => (r.get? (co - 1)).getD none))).foldl
            (fun rows jv => rows.map (fillCell jv.1 jv.2))
            (mkSplit shuffle d t).x_missing,
      ∀ cell ∈ r, cell.isSome := by
  have hwidth : (((mkSplit shuffle d t).x_missing ++ (mkSplit shuffle d t).x_train).any
      (fun r => r.length ≠ (List.range' 1 (d.ncols - 1)).length)) = false := by
    rw [List.any_eq_false]
    intro r hr
    have := mkSplit_widths hperm hw r hr
    simp [this, List.length_range']
  have hcolsmem : ∀ co ∈ (List.range d.ncols).filter (colHasNull d),
      1 ≤ co ∧ co < d.ncols := by
    intro co hco
    have h1 := List.mem_filter.1 hco
    have h2 := List.mem_range.1 h1.1
    refine ⟨?_, h2⟩
    by_contra h0
    have hco0 : co = 0 := by omega
    subst hco0
    have h3 := h1.2
    simp only [colHasNull, List.any_eq_true] at h3
    obtain ⟨row, hrow, hnull⟩ := h3
    exact htgt row hrow (Option.isNone_iff_eq_none.1 (by simpa using hnull))
  have htraincol : ∀ j, j < d.ncols - 1 →
      (stat ((mkSplit shuffle d t).x_train.map fun r => (r.get? j).getD none)).isSome := by
    intro j hj
    apply hstat
    · intro hc
      have hlen := mkSplit_x_train_length hperm hgt
      have := congrArg List.length hc
      rw [List.length_map, hlen] at this
      cases this
    · intro x hx
      obtain ⟨r, hr, rfl⟩ := List.mem_map.1 hx
      have hclean := mkSplit_train_clean hperm r hr
      have hwid : r.length = d.ncols - 1 :=
        mkSplit_widths hperm hw r (List.mem_append.2 (Or.inr hr))
      have hjr : j < r.length := by omega
      obtain ⟨cell, hcell⟩ : ∃ cell, r.get? j = some cell := by
        rw [List.get?_eq_getElem?]
        exact ⟨_, List.getElem?_eq_getElem hjr⟩
      rw [hcell, Option.getD_some]
      exact hclean _ (List.mem_iff_get?.2 ⟨j, hcell⟩)
  have hdict : mapExcept (fun col =>
      match colPos (List.range' 1 (d.ncols - 1)) col with
      | .error e => .error e
      | .ok j => .ok (j, stat ((mkSplit shuffle d t).x_train.map
          fun r => (r.get? j).getD none)))
      ((List.range d.ncols).filter (colHasNull d)) =
      .ok (((List.range d.ncols).filter (colHasNull d)).map fun co =>
        (co - 1, stat ((mkSplit shuffle d t).x_train.map
          fun r => (r.get? (co - 1)).getD none))) := by
    apply mapExcept_congr_ok
    intro co hco
    obtain ⟨h1, h2⟩ := hcolsmem co hco
    rw [colPos_range' (d.ncols - 1) 1 co h1 (by omega)]
  constructor
  · unfold imputeWith
    rw [if_neg (by
      rw [evalCtx_x_missing, evalCtx_x_train, evalCtx_feature_labels,
        mkSplit_feature_labels, hwidth]
      simp)]
    rw [evalCtx_x_missing, evalCtx_x_train, evalCtx_feature_labels,
      evalCtx_columns_missing, mkSplit_feature_labels, mkSplit_columns_missing, hdict]
  · intro r hr cell hcell
    rw [foldl_fill_map] at hr
    obtain ⟨r0, hr0, rfl⟩ := List.mem_map.1 hr
    refine foldl_fillCell_isSome _ r0 ?_ cell hcell
    intro j hj
    obtain ⟨p, hp, hpr⟩ := mkSplit_mem_x_missing hr0
    obtain ⟨row, hrow, hrowp⟩ := mem_pairsOf_fst (mem_missingPairs hp).1
    have hr0row : r0 = row.drop 1 := by rw [← hpr, hrowp]
    have hjlen : j < r0.length := by
      by_contra hge
      rw [List.get?_eq_getElem?, List.getElem?_eq_none (by omega)] at hj
      cases hj
    have hr0len : r0.length = d.ncols - 1 :=
      mkSplit_widths hperm hw r0 (List.mem_append.2 (Or.inl hr0))
    have hrownull : row.get? (1 + j) = some none := by
      rw [hr0row] at hj
      rw [List.get?_eq_getElem?, List.getElem?_drop] at hj
      rw [List.get?_eq_getElem?]
      exact hj
    have hnull : colHasNull d (j + 1) = true := by
      simp only [colHasNull, List.any_eq_true]
      refine ⟨row, hrow, ?_⟩
      rw [show j + 1 = 1 + j by omega, hrownull]
      rfl
    have hmemcols : (j + 1) ∈ (List.range d.ncols).filter (colHasNull d) := by
      rw [List.mem_filter, List.mem_range]
      exact ⟨by omega, hnull⟩
    have hst := htraincol j (by omega)
    obtain ⟨v, hv⟩ := Option.isSome_iff_exists.1 hst
    refine ⟨v, ?_⟩
    have hmap := List.mem_map_of_mem (fun co =>
      (co - 1, stat ((mkSplit shuffle d t).x_train.map
        fun r => (r.get? (co - 1)).getD none))) hmemcols
    dsimp only at hmap
    rw [show (j + 1) - 1 = j by omega] at hmap
    rw [← hv]
    exact hmap

/-- Claim C10 (implicit): when the target column contains no nulls and
`load_data` has succeeded, strategies D and E fill every column of the
missing-columns set of `x_missing` with the train mean/median, and the
result contains no null at all — the baseline model is only ever applied to
fully observed rows, so `predict`'s NaN branch is unreachable there. -/
theorem C10_impute_total {shuffle : List (Row × Int) → List (Row × Int)}
    {d : Dataset} {t : ℚ} {s : Split}
    (hperm : ∀ l, (shuffle l).Perm l)
    (hw : ∀ r ∈ d.rows, r.length = d.ncols)
    (htgt : ∀ r ∈ d.rows, ((r.get? 0).getD (some 0)) ≠ none)
    (hload : load_data shuffle d t = .ok s)
    (m? : Option Model) (fitf : List CRow → List Int → Model)
    (knnf : List Row → List Row → List Row) :
    (∃ imp, imputeWith colMean (evalCtx s m? fitf knnf) = .ok imp ∧
      ∀ r ∈ imp, ∀ cell ∈ r, cell.isSome) ∧
    (∃ imp, imputeWith colMedian (evalCtx s m? fitf knnf) = .ok imp ∧
      ∀ r ∈ imp, ∀ cell ∈ r, cell.isSome) := by
  obtain ⟨-, hgt, rfl⟩ := load_data_ok_iff.1 hload
  constructor
  · obtain ⟨h1, h2⟩ := imputeWith_total hperm hw htgt hgt
      (fun col hne hall => colMean_isSome hne hall) m? fitf knnf
    exact ⟨_, h1, h2⟩
  · obtain ⟨h1, h2⟩ := imputeWith_total hperm hw htgt hgt
      (fun col hne hall => colMedian_isSome hne hall) m? fitf knnf
    exact ⟨_, h1, h2⟩

theorem D2_rect : ∀ r ∈ D2.rows, r.length = D2.ncols := by
  intro r hr
  simp only [D2, List.mem_append, List.mem_replicate, List.mem_singleton] at hr
  rcases hr with ⟨-, rfl⟩ | rfl <;> rfl

theorem D2_target_total : ∀ r ∈ D2.rows, ((r.get? 0).getD (some 0)) ≠ none := by
  intro r hr
  simp only [D2, List.mem_append, List.mem_replicate, List.mem_singleton] at hr
  rcases hr with ⟨-, rfl⟩ | rfl <;> simp

/-- Witness for C10 at `D2` (one missing row whose only feature is null):
both imputations succeed and produce fully observed matrices. -/
theorem C10_impute_total_witness :
    (∀ l : List (Row × Int), (id l).Perm l) ∧
    (∀ r ∈ D2.rows, r.length = D2.ncols) ∧
    (∀ r ∈ D2.rows, ((r.get? 0).getD (some 0)) ≠ none) ∧
    load_data id D2 (1/2) = .ok (mkSplit id D2 (1/2)) ∧
    ((∃ imp, imputeWith colMean (evalCtx (mkSplit id D2 (1/2)) none fit0 knn0) = .ok imp ∧
        ∀ r ∈ imp, ∀ cell ∈ r, cell.isSome) ∧
      (∃ imp, imputeWith colMedian (evalCtx (mkSplit id D2 (1/2)) none fit0 knn0) = .ok imp ∧
        ∀ r ∈ imp, ∀ cell ∈ r, cell.isSome)) :=
  ⟨fun l => List.Perm.refl l, D2_rect, D2_target_total, load_D2,
    C10_impute_total (fun l => List.Perm.refl l) D2_rect D2_target_total
      load_D2 none fit0 knn0⟩

end TrainEval

namespace TrainEval

/-! ### Claim C6: the unguarded strategy sequence

A strategy branch can raise between its two dictionary writes: with an
empty missing partition, strategies A and B complete (`accuracy_score` of
two empty vectors is NaN, not an exception), then strategy C inserts its
combined-set accuracy (line 148) and fails at `model.predict` on the 0-row
rebuilt missing set (line 152, `ValueError` from `check_array`).  The
failed strategy's entry is then present in the entire-set mapping, so the
claim as stated is refuted and amended below. -/

theorem colHasNull_D1_zero : colHasNull D1 0 = false := by
  unfold colHasNull D1
  dsimp only
  rw [List.any_replicate]
  norm_num

theorem colHasNull_D1_one : colHasNull D1 1 = false := by
  unfold colHasNull D1
  dsimp only
  rw [List.any_replicate]
  norm_num

theorem missingPairs_D1 : missingPairs D1 (1/2) = [] := by
  unfold missingPairs pairsOf featuresOf labelsOf D1
  dsimp only
  rw [List.map_replicate, List.map_replicate, List.zip_replicate',
    List.filter_replicate_of_neg (by norm_num [isMissingRow])]

/-- The split that `load_data` produces on `D1`, in explicit form: all 3001
rows are complete, so the missing partition is empty. -/
def SD1 : Split :=
  { x_train := List.replicate 3000 [some 1], y_train := List.replicate 3000 1,
    x_test := [[some 1]], y_test := [1], x_missing := [], y_missing := [],
    missingMask := List.replicate 3001 false, feature_labels := [1],
    columns_missing := [] }

theorem mkSplit_D1 : mkSplit id D1 (1/2) = SD1 := by
  unfold mkSplit SD1
  simp only [id_eq]
  rw [completePairs_D1, missingPairs_D1]
  rw [List.take_replicate, List.drop_replicate]
  norm_num [List.map_replicate, featuresOf, D1, isMissingRow, List.range_succ]
  exact ⟨colHasNull_D1_zero, colHasNull_D1_one⟩

theorem foldr_max_replicate : ∀ (n a : Nat),
    (List.replicate n a).foldr max 0 = if n = 0 then 0 else max a 0 := by
  intro n a
  induction n with
  | zero => rfl
  | succ k ih =>
    rw [List.replicate_succ, List.foldr_cons, ih]
    rcases Nat.eq_zero_or_pos k with hk | hk
    · subst hk
      simp
    · rw [if_neg (by omega), if_neg (by omega), ← max_assoc, max_self]

theorem majorityClass_replicate_one :
    majorityClass (List.replicate 3000 (1 : Int)) = .ok 1 := by
  rw [majorityClass_eq (List.length_pos.1 (by rw [List.length_replicate]; norm_num))
    (by rw [List.any_replicate]; norm_num)]
  rw [List.map_replicate]
  rw [show (1 : Int).toNat = 1 from rfl]
  rw [show natMaxOf (List.replicate 3000 1) = 1 from by
    unfold natMaxOf
    rw [foldr_max_replicate]
    norm_num]
  rw [show List.range (1 + 1) = [0, 1] from rfl]
  rw [List.map_cons, List.map_cons, List.map_nil]
  rw [List.count_replicate, List.count_replicate]
  norm_num [argmaxIdx, beq_iff_eq]

/-- A fitted baseline classifier standing in for the forest trained on the
all-label-1 train partition of `D1`: it predicts 1 on every row. -/
def m1 : Model := fun _ => 1

/-- A loaded and fitted harness over `D1` (the split is exactly the result
of `load_data id D1 (1/2)`): zero missing rows. -/
def H6c : Harness :=
  { data := D1, threshold := 1/2, split := some (mkSplit id D1 (1/2)),
    fitted := some m1, acc_entire := [], acc_missing := [],
    fit := fit0, knn := knn0 }

/-- The strategy context of `H6c`, over the explicit split. -/
def CtxD1 : Ctx := evalCtx SD1 (some m1) fit0 knn0

theorem toCtx_H6c : (mkSplit id D1 (1/2)).toCtx H6c = CtxD1 := by
  unfold Split.toCtx CtxD1
  rw [mkSplit_D1]
  rfl

theorem runA_CtxD1 : runA CtxD1 = ⟨some 1, some 0, none⟩ := by
  norm_num [runA, CtxD1, evalCtx, SD1, m1, predictChecked, predictMatrix,
    mapExcept, accuracy_score, List.countP_cons, List.countP_nil]

theorem runB_CtxD1 : runB CtxD1 = ⟨some 1, some 0, none⟩ := by
  have hmaj : majorityClass CtxD1.y_train = .ok 1 := majorityClass_replicate_one
  unfold runB
  rw [hmaj]
  norm_num [CtxD1, evalCtx, SD1, m1, predictChecked, predictMatrix,
    mapExcept, accuracy_score, List.countP_cons, List.countP_nil]

theorem rebuildDrop_D1_train :
    rebuildDrop [1] [] (List.replicate 3000 [some 1]) =
      .ok (List.replicate 3000 [some 1]) := by
  unfold rebuildDrop
  rw [if_neg (by rw [List.any_replicate]; norm_num), if_neg (by simp)]
  rw [List.map_replicate]
  rfl

theorem runC_CtxD1 : runC CtxD1 = ⟨some 0, none, some .valueError⟩ := by
  unfold runC
  rw [show rebuildDrop CtxD1.feature_labels CtxD1.columns_missing
      (CtxD1.x_test ++ CtxD1.x_missing) = .ok [[some 1]] from by decide]
  dsimp only
  rw [show rebuildDrop CtxD1.feature_labels CtxD1.columns_missing CtxD1.x_train
      = .ok (List.replicate 3000 [some 1]) from rebuildDrop_D1_train]
  dsimp only
  rw [show fitChecked CtxD1.fit (List.replicate 3000 [some 1]) CtxD1.y_train
      = .ok (fit0 ((List.replicate 3000 [some 1]).map (·.filterMap id)) CtxD1.y_train) from by
    unfold fitChecked
    rw [if_neg (by rw [List.any_replicate]; decide)]
    rfl]
  dsimp only
  norm_num [CtxD1, evalCtx, SD1, m1, fit0, predictChecked, predictMatrix,
    mapExcept, accuracy_score, rebuildDrop, List.countP_cons, List.countP_nil]

theorem runAll_CtxD1 :
    runAll CtxD1 strategyOrder ([], []) =
      (([(Strategy.A, 1), (Strategy.B, 1), (Strategy.C, 0)],
        [(Strategy.A, 0), (Strategy.B, 0)]), some .valueError) := by
  have hA : runStrategy Strategy.A CtxD1 = ⟨some 1, some 0, none⟩ := runA_CtxD1
  have hB : runStrategy Strategy.B CtxD1 = ⟨some 1, some 0, none⟩ := runB_CtxD1
  have hC : runStrategy Strategy.C CtxD1 = ⟨some 0, none, some .valueError⟩ := runC_CtxD1
  show runAll CtxD1 (Strategy.A :: Strategy.B :: Strategy.C ::
    [Strategy.D, Strategy.E, Strategy.F]) ([], []) = _
  simp only [runAll, hA, hB, hC, Option.map_some', Option.map_none',
    Option.toList_some, Option.toList_none, List.nil_append, List.append_nil]
  rfl

theorem evaluate_H6c :
    evaluate_model H6c =
      ({H6c with acc_entire := [(Strategy.A, 1), (Strategy.B, 1), (Strategy.C, 0)],
                 acc_missing := [(Strategy.A, 0), (Strategy.B, 0)]}, some .valueError) := by
  unfold evaluate_model
  rw [show H6c.split = some (mkSplit id D1 (1/2)) from rfl]
  dsimp only
  rw [toCtx_H6c]
  rw [show (H6c.acc_entire, H6c.acc_missing) = (([] : Dict), ([] : Dict)) from rfl]
  rw [runAll_CtxD1]
  rfl

/-- Counterexample to claim C6 as stated: `D1` loads with zero missing
rows.  On the loaded-and-fitted harness `H6c`, strategies A and B complete,
strategy C records its combined-set accuracy and then fails with
`ValueError` at `model.predict` on the 0-row rebuilt missing set; the
error propagates and D, E, F never run — but the failed strategy C IS
present in the entire-set mapping (and absent only from the missing-only
one), contradicting "the entries of the failed and remaining strategies
are absent from both result mappings". -/
theorem C6_counterexample :
    load_data id D1 (1/2) = .ok (mkSplit id D1 (1/2)) ∧
    H6c.split = some (mkSplit id D1 (1/2)) ∧
    (evaluate_model H6c).2 = some .valueError ∧
    (evaluate_model H6c).1.acc_entire.map Prod.fst =
      [Strategy.A, Strategy.B, Strategy.C] ∧
    (evaluate_model H6c).1.acc_missing.map Prod.fst = [Strategy.A, Strategy.B] := by
  refine ⟨load_D1, rfl, ?_, ?_, ?_⟩ <;> rw [evaluate_H6c] <;> rfl

/-- Claim C6 (amended): the strategies run in the one fixed order
A, B, C, D, E, F in an unguarded sequence: when the strategies before `sf`
succeed and `sf` raises `e`, the error propagates out of `evaluate_model`,
the remaining strategies do not run and are absent from both mappings, and
the mappings hold exactly the entries written before the failure — those of
the earlier strategies, plus, when `sf` failed between its two dictionary
writes (`a? = some a`), the failed strategy's own combined-set entry, which
remains present in the entire-set mapping; the failed strategy is always
absent from the missing-only mapping. -/
theorem C6_unguarded_sequence (h : Harness) (sp : Split)
    (hsp : h.split = some sp)
    (hde : h.acc_entire = []) (hdm : h.acc_missing = [])
    (pre : List Strategy) (sf : Strategy) (post : List Strategy) (e : Err)
    (a? : Option ℚ)
    (horder : strategyOrder = pre ++ sf :: post)
    (hpre : ∀ j ∈ pre, (runStrategy j (sp.toCtx h)).err? = none)
    (hfail : runStrategy sf (sp.toCtx h) = ⟨a?, none, some e⟩) :
    strategyOrder = [.A, .B, .C, .D, .E, .F] ∧
    (evaluate_model h).2 = some e ∧
    (evaluate_model h).1.acc_entire =
      pre.map (fun j => (j, ((runStrategy j (sp.toCtx h)).entire?).getD 0)) ++
        (a?.map fun a => (sf, a)).toList ∧
    (evaluate_model h).1.acc_missing =
      pre.map (fun j => (j, ((runStrategy j (sp.toCtx h)).missing?).getD 0)) := by
  refine ⟨rfl, ?_⟩
  unfold evaluate_model
  rw [hsp]
  dsimp only
  rw [hde, hdm, horder, runAll_break (sp.toCtx h) e a? pre sf post [] [] hpre hfail]
  simp

theorem pre_AB_CtxD1 :
    ∀ j ∈ [Strategy.A, Strategy.B],
      (runStrategy j ((mkSplit id D1 (1/2)).toCtx H6c)).err? = none := by
  intro j hj
  rw [toCtx_H6c]
  rcases List.mem_cons.1 hj with rfl | hj
  · rw [show runStrategy Strategy.A CtxD1 = ⟨some 1, some 0, none⟩ from runA_CtxD1]
  · rcases List.mem_cons.1 hj with rfl | hj
    · rw [show runStrategy Strategy.B CtxD1 = ⟨some 1, some 0, none⟩ from runB_CtxD1]
    · cases hj

theorem fail_C_CtxD1 :
    runStrategy Strategy.C ((mkSplit id D1 (1/2)).toCtx H6c) =
      ⟨some 0, none, some .valueError⟩ := by
  rw [toCtx_H6c]
  exact runC_CtxD1

/-- Witness for (amended) C6 at `H6c`: strategies A and B succeed, strategy
C fails with `ValueError` after writing its combined-set entry (`a? = some 0`),
the error propagates, the entire-set mapping holds A, B and the failed C,
the missing-only mapping holds A and B, and D, E, F are absent from both. -/
theorem C6_unguarded_sequence_witness :
    H6c.split = some (mkSplit id D1 (1/2)) ∧
    H6c.acc_entire = [] ∧ H6c.acc_missing = [] ∧
    strategyOrder = [Strategy.A, Strategy.B] ++ Strategy.C ::
      [Strategy.D, Strategy.E, Strategy.F] ∧
    (∀ j ∈ [Strategy.A, Strategy.B],
      (runStrategy j ((mkSplit id D1 (1/2)).toCtx H6c)).err? = none) ∧
    runStrategy Strategy.C ((mkSplit id D1 (1/2)).toCtx H6c) =
      ⟨some 0, none, some .valueError⟩ ∧
    (strategyOrder = [.A, .B, .C, .D, .E, .F] ∧
      (evaluate_model H6c).2 = some .valueError ∧
      (evaluate_model H6c).1.acc_entire =
        [Strategy.A, Strategy.B].map
          (fun j => (j, ((runStrategy j
            ((mkSplit id D1 (1/2)).toCtx H6c)).entire?).getD 0)) ++
          ((some (0 : ℚ)).map fun a => (Strategy.C, a)).toList ∧
      (evaluate_model H6c).1.acc_missing =
        [Strategy.A, Strategy.B].map
          (fun j => (j, ((runStrategy j
            ((mkSplit id D1 (1/2)).toCtx H6c)).missing?).getD 0))) :=
  ⟨rfl, rfl, rfl, rfl, pre_AB_CtxD1, fail_C_CtxD1,
    C6_unguarded_sequence H6c (mkSplit id D1 (1/2)) rfl rfl rfl
      [Strategy.A, Strategy.B] Strategy.C [Strategy.D, Strategy.E, Strategy.F]
      .valueError (some 0) rfl pre_AB_CtxD1 fail_C_CtxD1⟩

end TrainEval
